import Mathlib

/-!
Verification of the maze dataset generator (beyond-semantics-maze-visualizer).

This file gives a shallow embedding of the headless ("dataset")
generation pipeline of the repository and proves or refutes the frozen
claims about it.  The embedding follows the JavaScript sources:

* `headless_gen/rng.js`          — the 32-bit LCG (`seedLCG`);
* `solvers/bfs.js`               — `astar.solveSync`, `extractLowestFScore`,
                                   `reconstructPathInternal`;
* `headless_gen/serializer.js`   — `serializeExample`;
* `headless_gen/index.js`        — `generateDataset` (sequential API);
* `headless_gen/producer-consumer.js` and `headless_gen/producer-worker.js`
                                   — the batch bookkeeping of the parallel
                                   pipeline (consumer side);
* `generators/kruskal.js`, `generators/wilson.js`,
  `generators/searchformer.js`, `generators/cellular_automata.js`
                                   — the `generateSync` maze generators.

Conventions.  JavaScript numbers holding 32-bit LCG states are modelled
as `Nat` reduced `% 2^32` where the source applies `>>> 0`.  A PRNG is
modelled as a stream `Nat → Nat` of successive (already advanced) states
`s`; the float the source sees is `s / 2^32`, so `Math.floor(prng() * n)`
is `s * n / 2^32` (exact for the magnitudes the program uses, where the
double product is exact) and `prng() < p` is `(s : ℚ) < p * 2^32`.
`Infinity`-valued score matrices become `Option Nat` with `none` = `∞`.
Unbounded `while` loops take a fuel argument and return `none` when the
fuel runs out, so every theorem about a loop's output is stated on runs
that finish (`= some _`).
-/

/-! ## Basic grid and matrix model -/

/-- A cell position `(x, y)`: `x` is the column, `y` the row. -/
abbrev Pos := Nat × Nat

/-- A mutable 2-D array is modelled as a function from positions. -/
abbrev Mat (α : Type) := Pos → α

/-- Pointwise update of a matrix, the meaning of `m[p.2][p.1] = v`. -/
def Mat.upd (m : Mat α) (p : Pos) (v : α) : Mat α :=
  fun q => if q = p then v else m q

@[simp] theorem Mat.upd_same (m : Mat α) (p : Pos) (v : α) : (m.upd p v) p = v := by
  simp [Mat.upd]

@[simp] theorem Mat.upd_ne (m : Mat α) {p q : Pos} (v : α) (h : q ≠ p) :
    (m.upd p v) q = m q := by
  simp [Mat.upd, h]

/-- A maze grid as the JavaScript value: a row-major list of rows,
`grid[y][x] ∈ {0 = wall, 1 = passage}`. -/
abbrev Grid := List (List Nat)

/-- `cellAt g y x` is `grid[y][x]`, with `0` for out-of-range reads. -/
def cellAt (g : Grid) (y x : Nat) : Nat := (g.getD y []).getD x 0

/-- `grid[y][x] = v` on the list-of-lists representation. -/
def setCell (g : Grid) (y x : Nat) (v : Nat) : Grid :=
  g.set y ((g.getD y []).set x v)

/-- Manhattan distance `|x1-x2| + |y1-y2|`, the solver heuristic. -/
def manh (p q : Pos) : Nat :=
  ((p.1 : Int) - q.1).natAbs + ((p.2 : Int) - q.2).natAbs

theorem manh_self (p : Pos) : manh p p = 0 := by simp [manh]

theorem manh_comm (p q : Pos) : manh p q = manh q p := by
  unfold manh
  rw [← Int.natAbs_neg ((p.1 : Int) - q.1), ← Int.natAbs_neg ((p.2 : Int) - q.2)]
  congr 1 <;> congr 1 <;> ring

theorem manh_triangle (p q r : Pos) : manh p r ≤ manh p q + manh q r := by
  have h1 : ((p.1 : Int) - r.1).natAbs ≤
      ((p.1 : Int) - q.1).natAbs + ((q.1 : Int) - r.1).natAbs := by
    have : (p.1 : Int) - r.1 = ((p.1 : Int) - q.1) + ((q.1 : Int) - r.1) := by ring
    rw [this]; exact Int.natAbs_add_le _ _
  have h2 : ((p.2 : Int) - r.2).natAbs ≤
      ((p.2 : Int) - q.2).natAbs + ((q.2 : Int) - r.2).natAbs := by
    have : (p.2 : Int) - r.2 = ((p.2 : Int) - q.2) + ((q.2 : Int) - r.2) := by ring
    rw [this]; exact Int.natAbs_add_le _ _
  calc manh p r = ((p.1 : Int) - r.1).natAbs + ((p.2 : Int) - r.2).natAbs := rfl
    _ ≤ (((p.1 : Int) - q.1).natAbs + ((q.1 : Int) - r.1).natAbs)
        + (((p.2 : Int) - q.2).natAbs + ((q.2 : Int) - r.2).natAbs) :=
      Nat.add_le_add h1 h2
    _ = manh p q + manh q r := by unfold manh; omega

/-! ## PRNG: the 32-bit LCG of `headless_gen/rng.js` -/

/-- One LCG advance: `state = (1664525 * state + 1013904223) >>> 0`. -/
def lcgNext (s : Nat) : Nat := (1664525 * s + 1013904223) % 4294967296

/-- The internal state after `i` draws, starting from `seed >>> 0`. -/
def lcgState (seed : Nat) : Nat → Nat
  | 0 => seed % 4294967296
  | i + 1 => lcgNext (lcgState seed i)

/-- The value returned by the `i`-th draw (`i ≥ 1`): `state / 2^32`. -/
def lcgVal (seed i : Nat) : ℚ := (lcgState seed i : ℚ) / 4294967296

/-- The LCG as a stream of states: stream position `n` holds the state
after `n + 1` advances, i.e. the value of the `(n+1)`-th call. -/
def lcgStream (seed : Nat) : Nat → Nat := fun n => lcgState seed (n + 1)

theorem lcgVal_nonneg (seed i : Nat) : 0 ≤ lcgVal seed i := by
  unfold lcgVal; positivity

theorem lcgState_lt (seed : Nat) (i : Nat) : lcgState seed i < 4294967296 := by
  cases i with
  | zero => exact Nat.mod_lt _ (by norm_num)
  | succ n => exact Nat.mod_lt _ (by norm_num)

theorem lcgVal_lt_one (seed i : Nat) : lcgVal seed i < 1 := by
  unfold lcgVal
  rw [div_lt_one (by norm_num)]
  exact_mod_cast lcgState_lt seed i

/-! ## A* solver: `astar.solveSync` of `solvers/bfs.js` -/

/-- Tag of a reasoning-trace event. -/
inductive ETag
  | close
  | create
deriving DecidableEq

/-- One reasoning event `[tag, x, y, 'c'+g, 'c'+h]`.  The numeric parts of
the two cost tokens are stored; the serializer prepends the literal `c`. -/
structure REvent where
  tag : ETag
  x : Nat
  y : Nat
  gval : Nat
  hval : Nat
deriving DecidableEq

/-- The value of `solveSync`: `{ reasoning, plan }`. -/
structure Solution where
  reasoning : List REvent
  plan : List Pos
deriving DecidableEq

/-- Comparison of scores where `none` is `Infinity`: `fin < Infinity` is
true and `Infinity < anything` is false, as for IEEE doubles. -/
def oLT : Option Nat → Option Nat → Bool
  | some a, some b => decide (a < b)
  | some _, none => true
  | none, _ => false

theorem oLT_irrefl (a : Option Nat) : oLT a a = false := by
  cases a <;> simp [oLT]

theorem oLT_trans {a b c : Option Nat} (h1 : oLT a b = true) (h2 : oLT b c = true) :
    oLT a c = true := by
  cases a <;> cases b <;> cases c <;> simp_all [oLT] <;> omega

/-- The scan of `extractLowestFScore`: walk the tail keeping the index and
score of the best entry so far; a new entry wins only with a strictly
smaller score (first-index tie-break). -/
def bestAux (fS : Mat (Option Nat)) : List Pos → Nat → Nat → Option Nat → Nat × Option Nat
  | [], _, bi, bf => (bi, bf)
  | p :: rest, i, bi, bf =>
    if oLT (fS p) bf then bestAux fS rest (i + 1) i (fS p)
    else bestAux fS rest (i + 1) bi bf

/-- `extractLowestFScore(openSet, fScore)`: find the entry with the lowest
`fScore` (smallest index on ties) and splice it out. -/
def extractLowestFScore (fS : Mat (Option Nat)) (l : List Pos) : Pos × List Pos :=
  match l with
  | [] => ((0, 0), [])
  | h :: rest =>
    let b := bestAux fS rest 1 0 (fS h)
    ((l.get? b.1).getD h, l.eraseIdx b.1)

theorem getElem?_eraseIdx_perm : ∀ (l : List Pos) (i : Nat) (x : Pos),
    l[i]? = some x → l.Perm (x :: l.eraseIdx i)
  | [], i, x, h => by simp at h
  | a :: t, 0, x, h => by
      simp at h
      subst h
      simp [List.eraseIdx]
  | a :: t, i + 1, x, h => by
      simp at h
      have ih := getElem?_eraseIdx_perm t i x h
      have h1 : (a :: t).Perm (a :: x :: t.eraseIdx i) := ih.cons a
      have h2 : (a :: x :: t.eraseIdx i).Perm (x :: a :: t.eraseIdx i) :=
        List.Perm.swap x a _
      have h3 : (a :: t).eraseIdx (i + 1) = a :: t.eraseIdx i := rfl
      rw [h3]
      exact h1.trans h2

theorem bestAux_spec (fS : Mat (Option Nat)) :
    ∀ (rest pre : List Pos) (bi : Nat) (e : Pos),
    pre[bi]? = some e → (∀ p ∈ pre, oLT (fS p) (fS e) = false) →
    ∃ e', (pre ++ rest)[(bestAux fS rest pre.length bi (fS e)).1]? = some e' ∧
      (bestAux fS rest pre.length bi (fS e)).2 = fS e' ∧
      ∀ p ∈ pre ++ rest, oLT (fS p) (fS e') = false
  | [], pre, bi, e, hget, hmin => by
      refine ⟨e, ?_, rfl, ?_⟩
      · simpa [bestAux] using hget
      · simpa [bestAux] using hmin
  | p :: rest, pre, bi, e, hget, hmin => by
      by_cases h : oLT (fS p) (fS e) = true
      · have step : bestAux fS (p :: rest) pre.length bi (fS e)
            = bestAux fS rest (pre.length + 1) pre.length (fS p) := by
          simp [bestAux, h]
        have hget' : (pre ++ [p])[pre.length]? = some p := by
          simp
        have hmin' : ∀ q ∈ pre ++ [p], oLT (fS q) (fS p) = false := by
          intro q hq
          rcases List.mem_append.mp hq with hq | hq
          · by_contra hcon
            have hq2 : oLT (fS q) (fS p) = true := by
              cases hx : oLT (fS q) (fS p)
              · exact absurd hx hcon
              · rfl
            have hqe : oLT (fS q) (fS e) = true := oLT_trans hq2 h
            rw [hmin q hq] at hqe
            exact Bool.false_ne_true hqe
          · simp at hq
            subst hq
            exact oLT_irrefl _
        have ih := bestAux_spec fS rest (pre ++ [p]) pre.length p hget' hmin'
        rw [step]
        have hlen : (pre ++ [p]).length = pre.length + 1 := by simp
        rw [hlen] at ih
        rcases ih with ⟨e', h1, h2, h3⟩
        refine ⟨e', ?_, h2, ?_⟩
        · simpa using h1
        · intro q hq
          apply h3
          simp at hq ⊢
          tauto
      · have hfalse : oLT (fS p) (fS e) = false := by
          cases hx : oLT (fS p) (fS e)
          · rfl
          · exact absurd hx h
        have step : bestAux fS (p :: rest) pre.length bi (fS e)
            = bestAux fS rest (pre.length + 1) bi (fS e) := by
          simp [bestAux, hfalse]
        have hbi : bi < pre.length := by
          by_contra hge
          rw [List.getElem?_eq_none (Nat.le_of_not_lt hge)] at hget
          exact Option.noConfusion hget
        have hget' : (pre ++ [p])[bi]? = some e := by
          rw [List.getElem?_append_left hbi]
          exact hget
        have hmin' : ∀ q ∈ pre ++ [p], oLT (fS q) (fS e) = false := by
          intro q hq
          rcases List.mem_append.mp hq with hq | hq
          · exact hmin q hq
          · simp at hq
            subst hq
            exact hfalse
        have ih := bestAux_spec fS rest (pre ++ [p]) bi e hget' hmin'
        rw [step]
        have hlen : (pre ++ [p]).length = pre.length + 1 := by simp
        rw [hlen] at ih
        rcases ih with ⟨e', h1, h2, h3⟩
        refine ⟨e', ?_, h2, ?_⟩
        · simpa using h1
        · intro q hq
          apply h3
          simp at hq ⊢
          tauto

theorem extractLowestFScore_spec (fS : Mat (Option Nat)) (l : List Pos) (hne : l ≠ []) :
    (extractLowestFScore fS l).1 ∈ l ∧
    l.Perm ((extractLowestFScore fS l).1 :: (extractLowestFScore fS l).2) ∧
    ∀ p ∈ l, oLT (fS p) (fS (extractLowestFScore fS l).1) = false := by
  match l with
  | [] => exact absurd rfl hne
  | h :: rest =>
    have hget : ([h] : List Pos)[0]? = some h := rfl
    have hmin : ∀ p ∈ [h], oLT (fS p) (fS h) = false := by
      intro p hp
      simp at hp
      subst hp
      exact oLT_irrefl _
    have spec := bestAux_spec fS rest [h] 0 h hget hmin
    simp only [List.length_singleton, List.singleton_append] at spec
    rcases spec with ⟨e', h1, h2, h3⟩
    have hchosen : (extractLowestFScore fS (h :: rest)).1 = e' := by
      simp [extractLowestFScore, List.get?_eq_getElem?, h1]
    have hrest : (extractLowestFScore fS (h :: rest)).2
        = (h :: rest).eraseIdx (bestAux fS rest 1 0 (fS h)).1 := rfl
    refine ⟨?_, ?_, ?_⟩
    · rw [hchosen]
      obtain ⟨hlt, rfl⟩ := List.getElem?_eq_some_iff.mp h1
      exact List.getElem_mem hlt
    · rw [hchosen, hrest]
      exact getElem?_eraseIdx_perm _ _ _ h1
    · intro p hp
      rw [hchosen]
      exact h3 p hp

/-- The loop state of `astar.solveSync`. -/
structure AState where
  openSet : List Pos
  closedSet : Mat Bool
  gScore : Mat (Option Nat)
  fScore : Mat (Option Nat)
  cameFrom : Mat (Option Pos)
  reasoning : List REvent

/-- Shared direction vectors `DIRS = [[0,-1],[1,0],[0,1],[-1,0]]`. -/
def DIRS : List (Int × Int) := [(0, -1), (1, 0), (0, 1), (-1, 0)]

/-- Neighbour cell of `p` in direction `d`, with the bounds check
`nx < 0 || nx >= cols || ny < 0 || ny >= rows → continue`. -/
def nbr (cols rows : Nat) (p : Pos) (d : Int × Int) : Option Pos :=
  let nx : Int := (p.1 : Int) + d.1
  let ny : Int := (p.2 : Int) + d.2
  if 0 ≤ nx ∧ nx < (cols : Int) ∧ 0 ≤ ny ∧ ny < (rows : Int) then
    some (nx.toNat, ny.toNat)
  else none

/-- The body of the neighbour loop of `solveSync` for one direction:
skip out-of-bounds, walls and closed cells, then relax and emit a
`create` event on improvement, appending to the open set if absent. -/
def relaxOne (cols rows : Nat) (grid : Grid) (h : Pos → Pos → Nat) (goal cur : Pos)
    (st : AState) (d : Int × Int) : AState :=
  match nbr cols rows cur d with
  | none => st
  | some v =>
    if cellAt grid v.2 v.1 = 0 ∨ st.closedSet v = true then st
    else
      match st.gScore cur with
      | none => st
      | some gc =>
        let tentative := gc + 1
        if oLT (some tentative) (st.gScore v) then
          let st1 : AState :=
            { st with
              cameFrom := st.cameFrom.upd v (some cur)
              gScore := st.gScore.upd v (some tentative)
              fScore := st.fScore.upd v (some (tentative + h v goal))
              reasoning := st.reasoning ++ [⟨ETag.create, v.1, v.2, tentative, h v goal⟩] }
          if v ∈ st1.openSet then st1 else { st1 with openSet := st1.openSet ++ [v] }
        else st

/-- The `close` reasoning event recorded when `cur` is popped. -/
def closeEvent (h : Pos → Pos → Nat) (goal cur : Pos) (st : AState) : REvent :=
  ⟨ETag.close, cur.1, cur.2, (st.gScore cur).getD 0, h cur goal⟩

/-- The main loop of `solveSync`, one fuel unit per iteration.  Returns the
state at loop exit (open set empty, or the goal popped) or `none` when
the fuel runs out. -/
def astarLoop (cols rows : Nat) (grid : Grid) (h : Pos → Pos → Nat) (goal : Pos) :
    Nat → AState → Option AState
  | 0, _ => none
  | fuel + 1, st =>
    match hop : st.openSet with
    | [] => some st
    | _ :: _ =>
      let ex := extractLowestFScore st.fScore st.openSet
      let cur := ex.1
      let st1 : AState :=
        { st with
          openSet := ex.2
          reasoning := st.reasoning ++ [closeEvent h goal cur st] }
      if cur = goal then some st1
      else
        let st2 : AState := { st1 with closedSet := st1.closedSet.upd cur true }
        astarLoop cols rows grid h goal fuel (DIRS.foldl (relaxOne cols rows grid h goal cur) st2)

/-- The `while (x !== startX || y !== startY)` walk of
`reconstructPathInternal`: push the current cell, follow the back-pointer,
stop early when it is missing. -/
def reconLoop (came : Mat (Option Pos)) (start : Pos) :
    Nat → Pos → List Pos → Option (List Pos)
  | 0, _, _ => none
  | fuel + 1, p, acc =>
    if p = start then some acc
    else
      match came p with
      | none => some (acc ++ [p])
      | some q => reconLoop came start fuel q (acc ++ [p])

/-- `reconstructPathInternal(cameFrom, startX, startY, goalX, goalY)`:
walk back from the goal, append the start, reverse. -/
def reconstructPathInternal (came : Mat (Option Pos)) (start goal : Pos) (fuel : Nat) :
    Option (List Pos) :=
  (reconLoop came start fuel goal []).map (fun path => (path ++ [start]).reverse)

/-- The `ctx` record handed to `solveSync` (grid and endpoints). -/
structure ACtx where
  rows : Nat
  cols : Nat
  grid : Grid
  startX : Nat
  startY : Nat
  goalX : Nat
  goalY : Nat
deriving DecidableEq

/-- Initial solver state: `gScore[start] = 0`,
`fScore[start] = h(start, goal)`, `openSet = [start]`. -/
def astarInit (ctx : ACtx) (h : Pos → Pos → Nat) : AState :=
  { openSet := [(ctx.startX, ctx.startY)]
    closedSet := fun _ => false
    gScore := Mat.upd (fun _ => none) (ctx.startX, ctx.startY) (some 0)
    fScore := Mat.upd (fun _ => none) (ctx.startX, ctx.startY)
      (some (h (ctx.startX, ctx.startY) (ctx.goalX, ctx.goalY)))
    cameFrom := fun _ => none
    reasoning := [] }

/-- `astar.solveSync(ctx)` with heuristic `h` and loop fuel `fuel`. -/
def solveSync (ctx : ACtx) (h : Pos → Pos → Nat) (fuel : Nat) : Option Solution := do
  let st ← astarLoop ctx.cols ctx.rows ctx.grid h (ctx.goalX, ctx.goalY) fuel (astarInit ctx h)
  let plan ← reconstructPathInternal st.cameFrom (ctx.startX, ctx.startY)
    (ctx.goalX, ctx.goalY) fuel
  pure { reasoning := st.reasoning, plan := plan }

/-- The Manhattan heuristic handed to the solver by the headless pipeline. -/
def heuristic (p q : Pos) : Nat := manh p q

/-! ## Reachability and shortest passage distance -/

/-- A cell the solver may step onto (`grid[ny][nx] === 0` skips it). -/
def passable (grid : Grid) (p : Pos) : Prop := cellAt grid p.2 p.1 ≠ 0

instance (grid : Grid) (p : Pos) : Decidable (passable grid p) :=
  inferInstanceAs (Decidable (cellAt grid p.2 p.1 ≠ 0))

/-- In-bounds predicate for a `cols × rows` grid. -/
def inB (cols rows : Nat) (p : Pos) : Prop := p.1 < cols ∧ p.2 < rows

instance (cols rows : Nat) (p : Pos) : Decidable (inB cols rows p) :=
  inferInstanceAs (Decidable (p.1 < cols ∧ p.2 < rows))

/-- 4-adjacency of two cells. -/
def adjacent (p q : Pos) : Prop :=
  (p.1 = q.1 ∧ (q.2 = p.2 + 1 ∨ p.2 = q.2 + 1)) ∨
  (p.2 = q.2 ∧ (q.1 = p.1 + 1 ∨ p.1 = q.1 + 1))

instance (p q : Pos) : Decidable (adjacent p q) :=
  inferInstanceAs (Decidable (
    (p.1 = q.1 ∧ (q.2 = p.2 + 1 ∨ p.2 = q.2 + 1)) ∨
    (p.2 = q.2 ∧ (q.1 = p.1 + 1 ∨ p.1 = q.1 + 1))))

theorem adjacent_symm {p q : Pos} (h : adjacent p q) : adjacent q p := by
  unfold adjacent at *; tauto

theorem adjacent_manh {p q : Pos} (h : adjacent p q) : manh p q = 1 := by
  rcases h with ⟨h1, h2 | h2⟩ | ⟨h1, h2 | h2⟩ <;>
    simp [manh, h1, h2] <;> omega

/-- One legal solver step: 4-adjacent, in bounds and onto a passage. -/
def adjStep (cols rows : Nat) (grid : Grid) (p q : Pos) : Prop :=
  adjacent p q ∧ inB cols rows q ∧ passable grid q

/-- `Reaches cols rows grid start n p`: a walk of `n` legal steps from
`start` ends at `p`.  The start cell itself is unconstrained, exactly as
in the solver, which expands the start whatever its cell value. -/
inductive Reaches (cols rows : Nat) (grid : Grid) (start : Pos) : Nat → Pos → Prop
  | zero : Reaches cols rows grid start 0 start
  | succ {n : Nat} {p q : Pos} : Reaches cols rows grid start n p →
      adjStep cols rows grid p q → Reaches cols rows grid start (n + 1) q

/-- Shortest step distance from `start` (meaningful when the target is
reachable). -/
noncomputable def distS (cols rows : Nat) (grid : Grid) (start : Pos) (p : Pos) : Nat :=
  sInf {n | Reaches cols rows grid start n p}

theorem distS_le {cols rows : Nat} {grid : Grid} {start p : Pos} {n : Nat}
    (h : Reaches cols rows grid start n p) : distS cols rows grid start p ≤ n :=
  Nat.sInf_le h

theorem reaches_distS {cols rows : Nat} {grid : Grid} {start p : Pos}
    (h : ∃ n, Reaches cols rows grid start n p) :
    Reaches cols rows grid start (distS cols rows grid start p) p :=
  Nat.sInf_mem h

theorem distS_start (cols rows : Nat) (grid : Grid) (start : Pos) :
    distS cols rows grid start start = 0 :=
  Nat.sInf_eq_zero.mpr (Or.inl Reaches.zero)

theorem distS_succ_le {cols rows : Nat} {grid : Grid} {start p q : Pos}
    (h : ∃ n, Reaches cols rows grid start n p) (hs : adjStep cols rows grid p q) :
    distS cols rows grid start q ≤ distS cols rows grid start p + 1 :=
  Nat.sInf_le ((reaches_distS h).succ hs)

/-- Extract an indexed path function from a reachability witness. -/
theorem reaches_path {cols rows : Nat} {grid : Grid} {start u : Pos} {k : Nat}
    (h : Reaches cols rows grid start k u) :
    ∃ P : Nat → Pos, P 0 = start ∧ P k = u ∧
      (∀ i < k, adjStep cols rows grid (P i) (P (i + 1))) ∧
      (∀ i ≤ k, Reaches cols rows grid start i (P i)) := by
  induction h with
  | zero =>
      exact ⟨fun _ => start, rfl, rfl, fun i hi => absurd hi (Nat.not_lt_zero i),
        fun i hi => by simpa [Nat.le_zero.mp hi] using Reaches.zero⟩
  | @succ n p q hr hs ih =>
      rcases ih with ⟨P, h0, hn, hadj, hreach⟩
      refine ⟨fun i => if i ≤ n then P i else q, by simp [h0], by simp, ?_, ?_⟩
      · intro i hi
        by_cases hin : i + 1 ≤ n
        · have hi' : i ≤ n := Nat.le_of_succ_le hin
          simpa [hi', hin] using hadj i (Nat.lt_of_succ_le hin)
        · have hieq : i = n := by omega
          subst hieq
          simp only [le_refl, if_pos, if_neg hin]
          rw [hn]
          exact hs
      · intro i hi
        by_cases hin : i ≤ n
        · simpa [hin] using hreach i hin
        · have hieq : i = n + 1 := by omega
          subst hieq
          simpa [hin] using hr.succ hs

/-! ## A* loop invariants -/

/-- The `close` events of a reasoning trace, in order. -/
def closesOf (l : List REvent) : List REvent :=
  l.filter (fun e => decide (e.tag = ETag.close))

/-- The `g + h` values attached to the `close` events of a trace. -/
def closeFs (l : List REvent) : List Nat :=
  (closesOf l).map (fun e => e.gval + e.hval)

theorem closesOf_append (l l' : List REvent) :
    closesOf (l ++ l') = closesOf l ++ closesOf l' := by
  simp [closesOf]

theorem closesOf_close (a b c d : Nat) :
    closesOf [⟨ETag.close, a, b, c, d⟩] = [⟨ETag.close, a, b, c, d⟩] := rfl

theorem closesOf_create (a b c d : Nat) :
    closesOf [⟨ETag.create, a, b, c, d⟩] = [] := rfl

/-- The invariant carried around the `solveSync` main loop.  `lB` is the
`g + h` value of the most recently popped cell (`0` before the first pop). -/
structure AInv (cols rows : Nat) (grid : Grid) (start goal : Pos) (lB : Nat)
    (st : AState) : Prop where
  nodup : st.openSet.Nodup
  open_not_closed : ∀ p ∈ st.openSet, st.closedSet p = false
  gf : ∀ p, st.fScore p = (st.gScore p).map (fun g => g + manh p goal)
  open_g : ∀ p ∈ st.openSet, (st.gScore p).isSome
  finite_mem : ∀ p, (st.gScore p).isSome → p ∈ st.openSet ∨ st.closedSet p = true
  g_start : st.gScore start = some 0
  came_start : st.cameFrom start = none
  g_zero : ∀ p n, st.gScore p = some n → n = 0 → p = start
  sound : ∀ p n, st.gScore p = some n → Reaches cols rows grid start n p
  closed_opt : ∀ p, st.closedSet p = true →
      st.gScore p = some (distS cols rows grid start p)
  closed_nbr : ∀ p, st.closedSet p = true → ∀ q, adjStep cols rows grid p q →
      ∃ m, st.gScore q = some m ∧ m ≤ distS cols rows grid start p + 1
  came_spec : ∀ p q, st.cameFrom p = some q → st.closedSet q = true ∧
      adjStep cols rows grid q p ∧
      ∃ gq, st.gScore q = some gq ∧ st.gScore p = some (gq + 1)
  came_exists : ∀ p n, st.gScore p = some n → p ≠ start → (st.cameFrom p).isSome
  goal_not_closed : st.closedSet goal = false
  open_bound : ∀ p ∈ st.openSet, lB ≤ (st.gScore p).getD 0 + manh p goal
  closes_chain : List.Chain' (· ≤ ·) (closeFs st.reasoning)
  closes_last : ∀ x ∈ (closeFs st.reasoning).getLast?, x ≤ lB
  first_close : ∀ e ∈ (closesOf st.reasoning).head?, ((e.x, e.y) : Pos) = start
  init_seg : closesOf st.reasoning = [] → st.openSet = [start]

/-- The initial solver state satisfies the invariant with bound `0`. -/
theorem astarInit_inv (ctx : ACtx) :
    AInv ctx.cols ctx.rows ctx.grid (ctx.startX, ctx.startY) (ctx.goalX, ctx.goalY) 0
      (astarInit ctx manh) := by
  constructor
  case nodup => simp [astarInit]
  case open_not_closed => intro p _; rfl
  case gf =>
    intro p
    by_cases hp : p = ((ctx.startX, ctx.startY) : Pos)
    · subst hp; simp [astarInit]
    · simp [astarInit, Mat.upd_ne _ _ hp]
  case open_g =>
    intro p hp
    simp [astarInit] at hp
    subst hp
    simp [astarInit]
  case finite_mem =>
    intro p hp
    by_cases hps : p = ((ctx.startX, ctx.startY) : Pos)
    · exact Or.inl (by simp [astarInit, hps])
    · simp [astarInit, Mat.upd_ne _ _ hps] at hp
  case g_start => simp [astarInit]
  case came_start => rfl
  case g_zero =>
    intro p n hp _
    by_cases hps : p = ((ctx.startX, ctx.startY) : Pos)
    · exact hps
    · simp [astarInit, Mat.upd_ne _ _ hps] at hp
  case sound =>
    intro p n hp
    by_cases hps : p = ((ctx.startX, ctx.startY) : Pos)
    · subst hps
      simp [astarInit] at hp
      subst hp
      exact Reaches.zero
    · simp [astarInit, Mat.upd_ne _ _ hps] at hp
  case closed_opt => intro p hp; exact absurd hp (by simp [astarInit])
  case closed_nbr => intro p hp; exact absurd hp (by simp [astarInit])
  case came_spec => intro p q hp; exact absurd hp (by simp [astarInit])
  case came_exists =>
    intro p n hp hps
    by_cases hq : p = ((ctx.startX, ctx.startY) : Pos)
    · exact absurd hq hps
    · simp [astarInit, Mat.upd_ne _ _ hq] at hp
  case goal_not_closed => rfl
  case open_bound => intro p _; exact Nat.zero_le _
  case closes_chain => simp [astarInit, closeFs, closesOf]
  case closes_last => simp [astarInit, closeFs, closesOf]
  case first_close => simp [astarInit, closesOf]
  case init_seg => intro _; rfl

/-- Along a path of unit steps the Manhattan distance to the endpoint is
bounded by the number of remaining steps. -/
theorem manh_path_le {cols rows : Nat} {grid : Grid} (P : Nat → Pos) (k : Nat)
    (hadj : ∀ i < k, adjStep cols rows grid (P i) (P (i + 1))) :
    ∀ d j, j + d = k → manh (P j) (P k) ≤ d := by
  intro d
  induction d with
  | zero =>
      intro j hj
      have : j = k := by omega
      subst this
      simp [manh_self]
  | succ d ih =>
      intro j hj
      have hjk : j < k := by omega
      have h1 : manh (P j) (P (j + 1)) = 1 := adjacent_manh (hadj j hjk).1
      have h2 : manh (P (j + 1)) (P k) ≤ d := ih (j + 1) (by omega)
      calc manh (P j) (P k) ≤ manh (P j) (P (j + 1)) + manh (P (j + 1)) (P k) :=
            manh_triangle _ _ _
        _ ≤ 1 + d := by omega
        _ = d + 1 := by omega

/-- A popped minimum-f cell carries its exact shortest distance (this is
the A*-with-consistent-heuristic optimality argument). -/
theorem pop_opt {cols rows : Nat} {grid : Grid} {start goal : Pos} {lB : Nat}
    {st : AState} {u : Pos}
    (inv : AInv cols rows grid start goal lB st)
    (hu : u ∈ st.openSet)
    (hmin : ∀ p ∈ st.openSet, oLT (st.fScore p) (st.fScore u) = false) :
    st.gScore u = some (distS cols rows grid start u) := by
  obtain ⟨gu, hgu⟩ := Option.isSome_iff_exists.mp (inv.open_g u hu)
  have hreach : Reaches cols rows grid start gu u := inv.sound u gu hgu
  have hdist_le : distS cols rows grid start u ≤ gu := distS_le hreach
  set k := distS cols rows grid start u with hk
  have hreach_k : Reaches cols rows grid start k u := reaches_distS ⟨gu, hreach⟩
  obtain ⟨P, hP0, hPk, hPadj, hPreach⟩ := reaches_path hreach_k
  have hpredk : st.closedSet (P k) = false := by
    rw [hPk]; exact inv.open_not_closed u hu
  have hex : ∃ j, st.closedSet (P j) = false := ⟨k, hpredk⟩
  set j := Nat.find hex with hj
  have hjfalse : st.closedSet (P j) = false := Nat.find_spec hex
  have hjle : j ≤ k := Nat.find_min' hex hpredk
  have hmem : ∃ m, st.gScore (P j) = some m ∧ m ≤ j := by
    match hjeq : j with
    | 0 =>
        refine ⟨0, ?_, le_refl 0⟩
        rw [hP0]
        exact inv.g_start
    | j' + 1 =>
        have hclosed : st.closedSet (P j') = true := by
          have := @Nat.find_min _ _ hex j' (by omega)
          
          cases hc : st.closedSet (P j')
          · exact absurd hc this
          · rfl
        have hgp' : st.gScore (P j') = some (distS cols rows grid start (P j')) :=
          inv.closed_opt _ hclosed
        have hdp' : distS cols rows grid start (P j') ≤ j' :=
          distS_le (hPreach j' (by omega))
        have hstep : adjStep cols rows grid (P j') (P (j' + 1)) :=
          hPadj j' (by omega)
        obtain ⟨m, hm, hmle⟩ := inv.closed_nbr _ hclosed _ hstep
        exact ⟨m, hm, by omega⟩
  obtain ⟨m, hgm, hmj⟩ := hmem
  have hopen : P j ∈ st.openSet := by
    rcases inv.finite_mem (P j) (by simp [hgm]) with h | h
    · exact h
    · rw [hjfalse] at h
      exact absurd h (by simp)
  have hflt := hmin (P j) hopen
  have hfu : st.fScore u = some (gu + manh u goal) := by
    rw [inv.gf u, hgu]; rfl
  have hfp : st.fScore (P j) = some (m + manh (P j) goal) := by
    rw [inv.gf (P j), hgm]; rfl
  have hle : gu + manh u goal ≤ m + manh (P j) goal := by
    rw [hfu, hfp] at hflt
    simp [oLT] at hflt
    omega
  have hseg : manh (P j) u ≤ k - j := by
    rw [← hPk]
    exact manh_path_le P k hPadj (k - j) j (by omega)
  have htri : manh (P j) goal ≤ manh (P j) u + manh u goal := manh_triangle _ _ _
  have hgu_le : gu ≤ k := by omega
  have : gu = k := le_antisymm hgu_le hdist_le
  rw [hgu, this]

/-- A direction from `DIRS` that passes the bounds check lands on an
adjacent in-bounds cell. -/
theorem nbr_adj {cols rows : Nat} {p v : Pos} {d : Int × Int} (hd : d ∈ DIRS)
    (h : nbr cols rows p d = some v) : adjacent p v ∧ inB cols rows v := by
  obtain ⟨v1, v2⟩ := v
  obtain ⟨p1, p2⟩ := p
  simp [DIRS] at hd
  rcases hd with rfl | rfl | rfl | rfl <;>
  · simp only [nbr] at h
    split at h
    · rename_i hcond
      simp at h
      obtain ⟨h1, h2⟩ := h
      constructor
      · simp [adjacent]
        omega
      · simp [inB]
        omega
    · exact Option.noConfusion h

/-- Conversely, every adjacent in-bounds cell is reached by one of the
four directions. -/
theorem nbr_coverage {cols rows : Nat} {p q : Pos} (ha : adjacent p q)
    (hb : inB cols rows q) : ∃ d ∈ DIRS, nbr cols rows p d = some q := by
  obtain ⟨q1, q2⟩ := q
  obtain ⟨p1, p2⟩ := p
  simp only [inB] at hb
  rcases ha with ⟨h1, h2 | h2⟩ | ⟨h1, h2 | h2⟩
  · refine ⟨(0, 1), by simp [DIRS], ?_⟩
    simp only [nbr]
    simp at h1 h2
    split
    · simp
      omega
    · rename_i hc
      exfalso
      simp at hb hc
      omega
  · refine ⟨(0, -1), by simp [DIRS], ?_⟩
    simp only [nbr]
    simp at h1 h2
    split
    · simp
      omega
    · rename_i hc
      exfalso
      simp at hb hc
      omega
  · refine ⟨(1, 0), by simp [DIRS], ?_⟩
    simp only [nbr]
    simp at h1 h2
    split
    · simp
      omega
    · rename_i hc
      exfalso
      simp at hb hc
      omega
  · refine ⟨(-1, 0), by simp [DIRS], ?_⟩
    simp only [nbr]
    simp at h1 h2
    split
    · simp
      omega
    · rename_i hc
      exfalso
      simp at hb hc
      omega

/-- Extraction from a singleton open set returns its element. -/
theorem extract_singleton (fS : Mat (Option Nat)) (s : Pos) :
    extractLowestFScore fS [s] = (s, []) := by
  simp [extractLowestFScore, bestAux]

/-- `relaxOne` never touches the closed set. -/
theorem relaxOne_closedSet (cols rows : Nat) (grid : Grid) (h : Pos → Pos → Nat)
    (goal cur : Pos) (st : AState) (d : Int × Int) :
    (relaxOne cols rows grid h goal cur st d).closedSet = st.closedSet := by
  unfold relaxOne
  split
  · rfl
  · split
    · rfl
    · split
      · rfl
      · dsimp only
        split
        · split <;> rfl
        · rfl

/-- `relaxOne` appends only `create` events, so the `close` events are
unchanged. -/
theorem relaxOne_closesOf (cols rows : Nat) (grid : Grid) (h : Pos → Pos → Nat)
    (goal cur : Pos) (st : AState) (d : Int × Int) :
    closesOf (relaxOne cols rows grid h goal cur st d).reasoning
      = closesOf st.reasoning := by
  unfold relaxOne
  split
  · rfl
  · split
    · rfl
    · split
      · rfl
      · dsimp only
        split
        · split <;> simp [closesOf_append, closesOf]
        · rfl

/-- Outcome analysis of `relaxOne`: either nothing happens, or the scores,
back-pointer and trace are updated at the stepped-to cell `v`. -/
theorem relaxOne_cases (cols rows : Nat) (grid : Grid) (hf : Pos → Pos → Nat)
    (goal cur : Pos) (st : AState) (d : Int × Int) :
    relaxOne cols rows grid hf goal cur st d = st ∨
    ∃ v gc,
      nbr cols rows cur d = some v ∧
      cellAt grid v.2 v.1 ≠ 0 ∧
      st.closedSet v = false ∧
      st.gScore cur = some gc ∧
      oLT (some (gc + 1)) (st.gScore v) = true ∧
      relaxOne cols rows grid hf goal cur st d =
        (if v ∈ st.openSet then
          { st with
            cameFrom := st.cameFrom.upd v (some cur)
            gScore := st.gScore.upd v (some (gc + 1))
            fScore := st.fScore.upd v (some (gc + 1 + hf v goal))
            reasoning := st.reasoning ++ [⟨ETag.create, v.1, v.2, gc + 1, hf v goal⟩] }
        else
          { st with
            openSet := st.openSet ++ [v]
            cameFrom := st.cameFrom.upd v (some cur)
            gScore := st.gScore.upd v (some (gc + 1))
            fScore := st.fScore.upd v (some (gc + 1 + hf v goal))
            reasoning := st.reasoning ++ [⟨ETag.create, v.1, v.2, gc + 1, hf v goal⟩] }) := by
  unfold relaxOne
  split
  · exact Or.inl rfl
  · rename_i v hv
    split
    · exact Or.inl rfl
    · rename_i hskip
      split
      · exact Or.inl rfl
      · rename_i gc hgc
        dsimp only
        split
        · rename_i himp
          push_neg at hskip
          refine Or.inr ⟨v, gc, hv, hskip.1, ?_, hgc, himp, ?_⟩
          · cases hcl : st.closedSet v
            · rfl
            · exact absurd hcl (by simpa using hskip.2)
          · split <;> rfl
        · exact Or.inl rfl

/-- The invariant holding between the closing of the popped cell `u` and
the recursive call, while its neighbours are being relaxed.  `du` is the
(optimal) g-score of `u`. -/
structure MidInv (cols rows : Nat) (grid : Grid) (start goal u : Pos) (du : Nat)
    (st : AState) : Prop where
  nodup : st.openSet.Nodup
  open_not_closed : ∀ p ∈ st.openSet, st.closedSet p = false
  gf : ∀ p, st.fScore p = (st.gScore p).map (fun g => g + manh p goal)
  open_g : ∀ p ∈ st.openSet, (st.gScore p).isSome
  finite_mem : ∀ p, (st.gScore p).isSome → p ∈ st.openSet ∨ st.closedSet p = true
  g_start : st.gScore start = some 0
  came_start : st.cameFrom start = none
  g_zero : ∀ p n, st.gScore p = some n → n = 0 → p = start
  sound : ∀ p n, st.gScore p = some n → Reaches cols rows grid start n p
  closed_opt : ∀ p, st.closedSet p = true →
      st.gScore p = some (distS cols rows grid start p)
  closed_nbr : ∀ p, st.closedSet p = true → p ≠ u → ∀ q, adjStep cols rows grid p q →
      ∃ m, st.gScore q = some m ∧ m ≤ distS cols rows grid start p + 1
  came_spec : ∀ p q, st.cameFrom p = some q → st.closedSet q = true ∧
      adjStep cols rows grid q p ∧
      ∃ gq, st.gScore q = some gq ∧ st.gScore p = some (gq + 1)
  came_exists : ∀ p n, st.gScore p = some n → p ≠ start → (st.cameFrom p).isSome
  goal_not_closed : st.closedSet goal = false
  u_closed : st.closedSet u = true
  u_g : st.gScore u = some du
  u_dist : du = distS cols rows grid start u
  open_bound : ∀ p ∈ st.openSet,
      du + manh u goal ≤ (st.gScore p).getD 0 + manh p goal
  closes_chain : List.Chain' (· ≤ ·) (closeFs st.reasoning)
  closes_last : ∀ x ∈ (closeFs st.reasoning).getLast?, x ≤ du + manh u goal
  first_close : ∀ e ∈ (closesOf st.reasoning).head?, ((e.x, e.y) : Pos) = start
  closes_ne : closesOf st.reasoning ≠ []

theorem closeFs_append (l l' : List REvent) :
    closeFs (l ++ l') = closeFs l ++ closeFs l' := by
  simp [closeFs, closesOf]

theorem closeFs_create (a b c d : Nat) :
    closeFs [⟨ETag.create, a, b, c, d⟩] = [] := rfl

theorem closeFs_close (a b c d : Nat) :
    closeFs [⟨ETag.close, a, b, c, d⟩] = [c + d] := rfl

/-- A successful relaxation of `v` (from the closed cell `u`) preserves
the mid-iteration invariant, whatever open list results from the
membership check. -/
theorem mid_upd {cols rows : Nat} {grid : Grid} {start goal u : Pos} {du : Nat}
    {st : AState} {v : Pos} (openL : List Pos)
    (m : MidInv cols rows grid start goal u du st)
    (hadj : adjStep cols rows grid u v)
    (hvnc : st.closedSet v = false)
    (hlt : oLT (some (du + 1)) (st.gScore v) = true)
    (hmem : ∀ p, p ∈ openL ↔ p ∈ st.openSet ∨ p = v)
    (hnodup : openL.Nodup) :
    MidInv cols rows grid start goal u du
      { st with
        openSet := openL
        cameFrom := st.cameFrom.upd v (some u)
        gScore := st.gScore.upd v (some (du + 1))
        fScore := st.fScore.upd v (some (du + 1 + manh v goal))
        reasoning := st.reasoning ++ [⟨ETag.create, v.1, v.2, du + 1, manh v goal⟩] } := by
  have hvu : v ≠ u := by
    intro h
    rw [h, m.u_closed] at hvnc
    exact Bool.noConfusion hvnc
  have hv_start : v ≠ start := by
    intro h
    rw [h, m.g_start] at hlt
    simp [oLT] at hlt
  constructor
  case nodup => exact hnodup
  case open_not_closed =>
    intro p hp
    dsimp only at hp ⊢
    rcases (hmem p).mp hp with h | h
    · exact m.open_not_closed p h
    · rw [h]; exact hvnc
  case gf =>
    intro p
    dsimp only
    by_cases hp : p = v
    · subst hp; simp
    · simp [Mat.upd_ne _ _ hp, m.gf p]
  case open_g =>
    intro p hp
    dsimp only at hp ⊢
    by_cases hpv : p = v
    · subst hpv; simp
    · rcases (hmem p).mp hp with h | h
      · simp [Mat.upd_ne _ _ hpv]
        exact Option.isSome_iff_exists.mp (m.open_g p h) |>.elim
          (fun a ha => by simp [ha])
      · exact absurd h hpv
  case finite_mem =>
    intro p hp
    dsimp only at hp ⊢
    by_cases hpv : p = v
    · exact Or.inl ((hmem p).mpr (Or.inr hpv))
    · rw [Mat.upd_ne _ _ hpv] at hp
      rcases m.finite_mem p hp with h | h
      · exact Or.inl ((hmem p).mpr (Or.inl h))
      · exact Or.inr h
  case g_start =>
    dsimp only
    rw [Mat.upd_ne _ _ (by exact fun h => hv_start h.symm)]
    exact m.g_start
  case came_start =>
    dsimp only
    rw [Mat.upd_ne _ _ (by exact fun h => hv_start h.symm)]
    exact m.came_start
  case g_zero =>
    intro p n hp hn
    dsimp only at hp
    by_cases hpv : p = v
    · subst hpv
      rw [Mat.upd_same] at hp
      injection hp with hp
      omega
    · rw [Mat.upd_ne _ _ hpv] at hp
      exact m.g_zero p n hp hn
  case sound =>
    intro p n hp
    dsimp only at hp
    by_cases hpv : p = v
    · subst hpv
      rw [Mat.upd_same] at hp
      injection hp with hp
      rw [← hp]
      exact (m.sound u du m.u_g).succ hadj
    · rw [Mat.upd_ne _ _ hpv] at hp
      exact m.sound p n hp
  case closed_opt =>
    intro p hp
    dsimp only at hp ⊢
    have hpv : p ≠ v := by
      intro h
      rw [h, hvnc] at hp
      exact Bool.noConfusion hp
    rw [Mat.upd_ne _ _ hpv]
    exact m.closed_opt p hp
  case closed_nbr =>
    intro p hp hpu q hq
    dsimp only at hp ⊢
    obtain ⟨mq, hmq, hle⟩ := m.closed_nbr p hp hpu q hq
    by_cases hqv : q = v
    · subst hqv
      rw [hmq] at hlt
      simp [oLT] at hlt
      exact ⟨du + 1, by simp, by omega⟩
    · exact ⟨mq, by rw [Mat.upd_ne _ _ hqv]; exact hmq, hle⟩
  case came_spec =>
    intro p q hp
    dsimp only at hp ⊢
    by_cases hpv : p = v
    · subst hpv
      rw [Mat.upd_same] at hp
      injection hp with hp
      subst hp
      refine ⟨m.u_closed, hadj, du, ?_, by simp⟩
      rw [Mat.upd_ne _ _ (by exact fun h => hvu h.symm)]
      exact m.u_g
    · rw [Mat.upd_ne _ _ hpv] at hp
      obtain ⟨hqc, hqa, gq, hgq, hgp⟩ := m.came_spec p q hp
      have hqv : q ≠ v := by
        intro h
        rw [h, hvnc] at hqc
        exact Bool.noConfusion hqc
      exact ⟨hqc, hqa, gq, by rw [Mat.upd_ne _ _ hqv]; exact hgq,
        by rw [Mat.upd_ne _ _ hpv]; exact hgp⟩
  case came_exists =>
    intro p n hp hps
    dsimp only at hp ⊢
    by_cases hpv : p = v
    · subst hpv; simp
    · rw [Mat.upd_ne _ _ hpv] at hp
      rw [Mat.upd_ne _ _ hpv]
      exact m.came_exists p n hp hps
  case goal_not_closed => exact m.goal_not_closed
  case u_closed => exact m.u_closed
  case u_g =>
    dsimp only
    rw [Mat.upd_ne _ _ (by exact fun h => hvu h.symm)]
    exact m.u_g
  case u_dist => exact m.u_dist
  case open_bound =>
    intro p hp
    dsimp only at hp ⊢
    by_cases hpv : p = v
    · subst hpv
      simp only [Mat.upd_same, Option.getD_some]
      have h1 : manh u goal ≤ manh u p + manh p goal := manh_triangle _ _ _
      have h2 : manh u p = 1 := adjacent_manh hadj.1
      omega
    · rcases (hmem p).mp hp with h | h
      · simp only [Mat.upd_ne _ _ hpv]
        exact m.open_bound p h
      · exact absurd h hpv
  case closes_chain =>
    simp only [closeFs_append, closeFs_create, List.append_nil]
    exact m.closes_chain
  case closes_last =>
    simp only [closeFs_append, closeFs_create, List.append_nil]
    exact m.closes_last
  case first_close =>
    simp only [closesOf_append, closesOf_create, List.append_nil]
    exact m.first_close
  case closes_ne =>
    simp only [closesOf_append, closesOf_create, List.append_nil]
    exact m.closes_ne

/-- One relaxation step preserves the mid-iteration invariant. -/
theorem relaxOne_mid {cols rows : Nat} {grid : Grid} {start goal u : Pos} {du : Nat}
    {st : AState} {d : Int × Int} (hd : d ∈ DIRS)
    (m : MidInv cols rows grid start goal u du st) :
    MidInv cols rows grid start goal u du (relaxOne cols rows grid manh goal u st d) := by
  rcases relaxOne_cases cols rows grid manh goal u st d with h |
    ⟨v, gc, hv, hwall, hvnc, hgc, hlt, heq⟩
  · rw [h]; exact m
  · have hgcdu : gc = du := by
      rw [m.u_g] at hgc
      injection hgc with h'
      omega
    subst hgcdu
    have hadj : adjStep cols rows grid u v :=
      ⟨(nbr_adj hd hv).1, (nbr_adj hd hv).2, hwall⟩
    rw [heq]
    split
    · rename_i hvin
      exact mid_upd st.openSet m hadj hvnc hlt
        (fun p => ⟨Or.inl, fun hp => hp.elim id (fun h => h ▸ hvin)⟩) m.nodup
    · rename_i hvout
      refine mid_upd (st.openSet ++ [v]) m hadj hvnc hlt (fun p => ?_) ?_
      · simp [List.mem_append]
      · simp [List.nodup_append, m.nodup, hvout]

/-- Relaxation never worsens an established g-score bound. -/
theorem relaxOne_gBound {cols rows : Nat} {grid : Grid} {goal u : Pos}
    (st : AState) (d : Int × Int) {q : Pos} {b : Nat}
    (hb : ∃ m, st.gScore q = some m ∧ m ≤ b) :
    ∃ m, (relaxOne cols rows grid manh goal u st d).gScore q = some m ∧ m ≤ b := by
  rcases relaxOne_cases cols rows grid manh goal u st d with h |
    ⟨v, gc, hv, hwall, hvnc, hgc, hlt, heq⟩
  · rw [h]; exact hb
  · obtain ⟨m0, hm0, hle⟩ := hb
    rw [heq]
    by_cases hqv : q = v
    · subst hqv
      rw [hm0] at hlt
      simp [oLT] at hlt
      split <;> exact ⟨gc + 1, by simp, by omega⟩
    · split <;> exact ⟨m0, by dsimp only; rw [Mat.upd_ne _ _ hqv]; exact hm0, hle⟩

/-- Relaxing the direction that reaches an unclosed passable neighbour `q`
leaves `q` with a g-score of at most `du + 1`. -/
theorem relaxOne_estab {cols rows : Nat} {grid : Grid} {goal u : Pos} {du : Nat}
    (st : AState) {d : Int × Int} {q : Pos}
    (hq : nbr cols rows u d = some q) (hpass : cellAt grid q.2 q.1 ≠ 0)
    (hnc : st.closedSet q = false) (hg : st.gScore u = some du) :
    ∃ m, (relaxOne cols rows grid manh goal u st d).gScore q = some m ∧ m ≤ du + 1 := by
  unfold relaxOne
  rw [hq, hg]
  dsimp only
  have hcond : ¬(cellAt grid q.2 q.1 = 0 ∨ st.closedSet q = true) := by
    simp [hpass, hnc]
  rw [if_neg hcond]
  by_cases holt : oLT (some (du + 1)) (st.gScore q) = true
  · rw [if_pos holt]
    split <;> exact ⟨du + 1, by simp, le_refl _⟩
  · rw [if_neg holt]
    cases hgq : st.gScore q with
    | none => rw [hgq] at holt; simp [oLT] at holt
    | some mq =>
        rw [hgq] at holt
        simp [oLT] at holt
        exact ⟨mq, rfl, by omega⟩

/-- After the whole neighbour loop the mid-invariant still holds and every
adjacent passable in-bounds cell carries a g-score of at most `du + 1`. -/
theorem relaxAll_mid {cols rows : Nat} {grid : Grid} {start goal u : Pos} {du : Nat}
    {st : AState} (m : MidInv cols rows grid start goal u du st) :
    MidInv cols rows grid start goal u du
      (DIRS.foldl (relaxOne cols rows grid manh goal u) st) ∧
    ∀ q, adjStep cols rows grid u q →
      ∃ mq, (DIRS.foldl (relaxOne cols rows grid manh goal u) st).gScore q = some mq ∧
        mq ≤ du + 1 := by
  have hd1 : ((0, -1) : Int × Int) ∈ DIRS := by simp [DIRS]
  have hd2 : ((1, 0) : Int × Int) ∈ DIRS := by simp [DIRS]
  have hd3 : ((0, 1) : Int × Int) ∈ DIRS := by simp [DIRS]
  have hd4 : ((-1, 0) : Int × Int) ∈ DIRS := by simp [DIRS]
  have m1 := relaxOne_mid hd1 m
  have m2 := relaxOne_mid hd2 m1
  have m3 := relaxOne_mid hd3 m2
  have m4 := relaxOne_mid hd4 m3
  have hfold : DIRS.foldl (relaxOne cols rows grid manh goal u) st =
      relaxOne cols rows grid manh goal u
        (relaxOne cols rows grid manh goal u
          (relaxOne cols rows grid manh goal u
            (relaxOne cols rows grid manh goal u st (0, -1)) (1, 0)) (0, 1)) (-1, 0) := rfl
  have hclosed_eq : ∀ s : AState, ∀ d : Int × Int,
      (relaxOne cols rows grid manh goal u s d).closedSet = s.closedSet :=
    fun s d => relaxOne_closedSet cols rows grid manh goal u s d
  refine ⟨by rw [hfold]; exact m4, ?_⟩
  intro q hq
  rw [hfold]
  by_cases hcl : st.closedSet q = true
  · have hclfold : (relaxOne cols rows grid manh goal u
        (relaxOne cols rows grid manh goal u
          (relaxOne cols rows grid manh goal u
            (relaxOne cols rows grid manh goal u st (0, -1)) (1, 0)) (0, 1)) (-1, 0)).closedSet q
        = true := by
      rw [hclosed_eq, hclosed_eq, hclosed_eq, hclosed_eq]
      exact hcl
    have hopt := m4.closed_opt q hclfold
    have hreach_u : Reaches cols rows grid start du u := m.sound u du m.u_g
    have hdle : distS cols rows grid start q ≤ du + 1 := by
      have := distS_le (hreach_u.succ hq)
      exact this
    exact ⟨distS cols rows grid start q, hopt, hdle⟩
  · have hnc : st.closedSet q = false := by
      cases h : st.closedSet q
      · rfl
      · exact absurd h hcl
    obtain ⟨d, hd, hnd⟩ := nbr_coverage hq.1 hq.2.1
    have hpass : cellAt grid q.2 q.1 ≠ 0 := hq.2.2
    simp only [DIRS, List.mem_cons, List.not_mem_nil, or_false] at hd
    rcases hd with rfl | rfl | rfl | rfl
    · have e1 := @relaxOne_estab cols rows grid goal _ _ st _ _ hnd hpass hnc m.u_g
      exact relaxOne_gBound _ _ (relaxOne_gBound _ _ (relaxOne_gBound _ _ e1))
    · have hnc1 : (relaxOne cols rows grid manh goal u st (0, -1)).closedSet q = false := by
        rw [hclosed_eq]; exact hnc
      have e2 := @relaxOne_estab cols rows grid goal _ _ _ _ _ hnd hpass hnc1 m1.u_g
      exact relaxOne_gBound _ _ (relaxOne_gBound _ _ e2)
    · have hnc2 : (relaxOne cols rows grid manh goal u
          (relaxOne cols rows grid manh goal u st (0, -1)) (1, 0)).closedSet q = false := by
        rw [hclosed_eq, hclosed_eq]; exact hnc
      have e3 := @relaxOne_estab cols rows grid goal _ _ _ _ _ hnd hpass hnc2 m2.u_g
      exact relaxOne_gBound _ _ e3
    · have hnc3 : (relaxOne cols rows grid manh goal u
          (relaxOne cols rows grid manh goal u
            (relaxOne cols rows grid manh goal u st (0, -1)) (1, 0)) (0, 1)).closedSet q
          = false := by
        rw [hclosed_eq, hclosed_eq, hclosed_eq]; exact hnc
      exact @relaxOne_estab cols rows grid goal _ _ _ _ _ hnd hpass hnc3 m3.u_g

theorem chain_append_le {l : List Nat} {b x : Nat} (hc : List.Chain' (· ≤ ·) l)
    (hl : ∀ y ∈ l.getLast?, y ≤ b) (hbx : b ≤ x) :
    List.Chain' (· ≤ ·) (l ++ [x]) := by
  rw [List.chain'_append]
  refine ⟨hc, List.chain'_singleton x, ?_⟩
  intro y hy z hz
  simp at hz
  subst hz
  exact le_trans (hl y hy) hbx

theorem head?_append_ne {α : Type} {l l' : List α} (h : l ≠ []) :
    (l ++ l').head? = l.head? := by
  cases l with
  | nil => exact absurd rfl h
  | cons a t => simp

/-- Popping a non-goal cell of minimal f-score, recording its `close`
event and closing it yields the mid-iteration invariant. -/
theorem close_mid {cols rows : Nat} {grid : Grid} {start goal : Pos} {lB : Nat}
    {st : AState} (inv : AInv cols rows grid start goal lB st)
    (hne : st.openSet ≠ [])
    (hng : (extractLowestFScore st.fScore st.openSet).1 ≠ goal) :
    MidInv cols rows grid start goal (extractLowestFScore st.fScore st.openSet).1
      ((st.gScore (extractLowestFScore st.fScore st.openSet).1).getD 0)
      { st with
        openSet := (extractLowestFScore st.fScore st.openSet).2
        closedSet := st.closedSet.upd (extractLowestFScore st.fScore st.openSet).1 true
        reasoning := st.reasoning ++
          [closeEvent manh goal (extractLowestFScore st.fScore st.openSet).1 st] } := by
  obtain ⟨hmem, hperm, hmin⟩ := extractLowestFScore_spec st.fScore st.openSet hne
  set cur := (extractLowestFScore st.fScore st.openSet).1 with hcur
  set rest := (extractLowestFScore st.fScore st.openSet).2 with hrest
  have hpop : st.gScore cur = some (distS cols rows grid start cur) :=
    pop_opt inv hmem (fun p hp => hmin p hp)
  have hdu : (st.gScore cur).getD 0 = distS cols rows grid start cur := by
    rw [hpop]; rfl
  have hnodup_cons : (cur :: rest).Nodup := hperm.nodup inv.nodup
  have hcur_rest : cur ∉ rest := by
    have := List.nodup_cons.mp hnodup_cons
    exact this.1
  have hrest_nodup : rest.Nodup := (List.nodup_cons.mp hnodup_cons).2
  have hmem_iff : ∀ p, p ∈ st.openSet ↔ p = cur ∨ p ∈ rest := by
    intro p
    rw [hperm.mem_iff]
    simp
  have hev : closeEvent manh goal cur st =
      ⟨ETag.close, cur.1, cur.2, (st.gScore cur).getD 0, manh cur goal⟩ := rfl
  constructor
  case nodup => exact hrest_nodup
  case open_not_closed =>
    intro p hp
    dsimp only at hp ⊢
    have hpo : p ∈ st.openSet := (hmem_iff p).mpr (Or.inr hp)
    have hpc : p ≠ cur := fun h => hcur_rest (h ▸ hp)
    rw [Mat.upd_ne _ _ hpc]
    exact inv.open_not_closed p hpo
  case gf => exact inv.gf
  case open_g =>
    intro p hp
    dsimp only at hp
    exact inv.open_g p ((hmem_iff p).mpr (Or.inr hp))
  case finite_mem =>
    intro p hp
    dsimp only at hp ⊢
    rcases inv.finite_mem p hp with h | h
    · rcases (hmem_iff p).mp h with h' | h'
      · subst h'
        exact Or.inr (by rw [Mat.upd_same])
      · exact Or.inl h'
    · refine Or.inr ?_
      by_cases hpc : p = cur
      · subst hpc; rw [Mat.upd_same]
      · rw [Mat.upd_ne _ _ hpc]; exact h
  case g_start => exact inv.g_start
  case came_start => exact inv.came_start
  case g_zero => exact inv.g_zero
  case sound => exact inv.sound
  case closed_opt =>
    intro p hp
    dsimp only at hp ⊢
    by_cases hpc : p = cur
    · subst hpc
      exact hdu ▸ hpop
    · rw [Mat.upd_ne _ _ hpc] at hp
      exact inv.closed_opt p hp
  case closed_nbr =>
    intro p hp hpu q hq
    dsimp only at hp hpu ⊢
    rw [Mat.upd_ne _ _ hpu] at hp
    exact inv.closed_nbr p hp q hq
  case came_spec =>
    intro p q hp
    dsimp only at hp ⊢
    obtain ⟨hqc, hqa, gq, hgq, hgp⟩ := inv.came_spec p q hp
    refine ⟨?_, hqa, gq, hgq, hgp⟩
    by_cases hqcur : q = cur
    · subst hqcur; rw [Mat.upd_same]
    · rw [Mat.upd_ne _ _ hqcur]; exact hqc
  case came_exists => exact inv.came_exists
  case goal_not_closed =>
    dsimp only
    rw [Mat.upd_ne _ _ (fun h => hng h.symm)]
    exact inv.goal_not_closed
  case u_closed => exact Mat.upd_same _ _ _
  case u_g => exact hdu ▸ hpop
  case u_dist => exact hdu
  case open_bound =>
    intro p hp
    dsimp only at hp ⊢
    have hpo : p ∈ st.openSet := (hmem_iff p).mpr (Or.inr hp)
    have hflt := hmin p hpo
    obtain ⟨gp, hgp⟩ := Option.isSome_iff_exists.mp (inv.open_g p hpo)
    obtain ⟨gc, hgc⟩ := Option.isSome_iff_exists.mp (inv.open_g cur hmem)
    have hfp : st.fScore p = some (gp + manh p goal) := by rw [inv.gf p, hgp]; rfl
    have hfc : st.fScore cur = some (gc + manh cur goal) := by rw [inv.gf cur, hgc]; rfl
    rw [hfp, hfc] at hflt
    simp [oLT] at hflt
    rw [hgp, hgc]
    simp
    omega
  case closes_chain =>
    dsimp only
    rw [hev, closeFs_append, closeFs_close]
    refine chain_append_le inv.closes_chain inv.closes_last ?_
    have := inv.open_bound cur hmem
    omega
  case closes_last =>
    dsimp only
    rw [hev, closeFs_append, closeFs_close, List.getLast?_concat]
    intro x hx
    simp at hx
    omega
  case first_close =>
    intro e he
    dsimp only at he
    rw [hev, closesOf_append, closesOf_close] at he
    by_cases hcl : closesOf st.reasoning = []
    · rw [hcl] at he
      simp at he
      have hopen_single : st.openSet = [start] := inv.init_seg hcl
      have : cur = start := by
        have := hcur
        rw [hopen_single] at this
        rw [this, extract_singleton]
      subst he
      simpa using this
    · rw [head?_append_ne hcl] at he
      exact inv.first_close e he
  case closes_ne =>
    dsimp only
    rw [hev, closesOf_append, closesOf_close]
    simp

/-- After the neighbour loop the full loop invariant holds again, with the
popped cell's f-value as the new lower bound. -/
theorem mid_to_inv {cols rows : Nat} {grid : Grid} {start goal u : Pos} {du : Nat}
    {s : AState} (m : MidInv cols rows grid start goal u du s)
    (hcov : ∀ q, adjStep cols rows grid u q →
      ∃ mq, s.gScore q = some mq ∧ mq ≤ du + 1) :
    AInv cols rows grid start goal (du + manh u goal) s := by
  constructor
  case nodup => exact m.nodup
  case open_not_closed => exact m.open_not_closed
  case gf => exact m.gf
  case open_g => exact m.open_g
  case finite_mem => exact m.finite_mem
  case g_start => exact m.g_start
  case came_start => exact m.came_start
  case g_zero => exact m.g_zero
  case sound => exact m.sound
  case closed_opt => exact m.closed_opt
  case closed_nbr =>
    intro p hp q hq
    by_cases hpu : p = u
    · subst hpu
      obtain ⟨mq, hmq, hle⟩ := hcov q hq
      exact ⟨mq, hmq, by rw [← m.u_dist]; exact hle⟩
    · exact m.closed_nbr p hp hpu q hq
  case came_spec =>
    intro p q hp
    exact m.came_spec p q hp
  case came_exists => exact m.came_exists
  case goal_not_closed => exact m.goal_not_closed
  case open_bound => exact m.open_bound
  case closes_chain => exact m.closes_chain
  case closes_last => exact m.closes_last
  case first_close => exact m.first_close
  case init_seg => intro h; exact absurd h m.closes_ne

/-- Everything the claims need about the state in which the `solveSync`
main loop exits. -/
structure LoopOut (cols rows : Nat) (grid : Grid) (start goal : Pos)
    (st : AState) : Prop where
  came_spec : ∀ p q, st.cameFrom p = some q →
      adjStep cols rows grid q p ∧ ∃ gq, st.gScore q = some gq ∧ st.gScore p = some (gq + 1)
  came_exists : ∀ p n, st.gScore p = some n → p ≠ start → (st.cameFrom p).isSome
  came_start : st.cameFrom start = none
  g_start : st.gScore start = some 0
  g_zero : ∀ p n, st.gScore p = some n → n = 0 → p = start
  sound : ∀ p n, st.gScore p = some n → Reaches cols rows grid start n p
  chain : List.Chain' (· ≤ ·) (closeFs st.reasoning)
  firstc : ∀ e ∈ (closesOf st.reasoning).head?, ((e.x, e.y) : Pos) = start
  exit :
    (st.openSet = [] ∧
     (∀ p, (st.gScore p).isSome → st.closedSet p = true) ∧
     (∀ p, st.closedSet p = true → ∀ q, adjStep cols rows grid p q →
        (st.gScore q).isSome) ∧
     st.closedSet goal = false) ∨
    (st.gScore goal = some (distS cols rows grid start goal) ∧
     (closesOf st.reasoning).getLast? =
       some ⟨ETag.close, goal.1, goal.2, distS cols rows grid start goal, manh goal goal⟩)

/-- Main loop correctness: a finished run of the `solveSync` loop from any
invariant state lands in a state satisfying `LoopOut`. -/
theorem astarLoop_out {cols rows : Nat} {grid : Grid} {start goal : Pos} :
    ∀ (fuel : Nat) (st : AState) (lB : Nat) (st' : AState),
    AInv cols rows grid start goal lB st →
    astarLoop cols rows grid manh goal fuel st = some st' →
    LoopOut cols rows grid start goal st' := by
  intro fuel
  induction fuel with
  | zero =>
      intro st lB st' _ hrun
      exact Option.noConfusion hrun
  | succ fuel ih =>
      intro st lB st' inv hrun
      cases hopen : st.openSet with
      | nil =>
          rw [astarLoop, hopen] at hrun
          injection hrun with hrun
          subst hrun
          refine
            { came_spec := fun p q hp => ((inv.came_spec p q hp).2.1).elim
                (fun _ _ => ⟨(inv.came_spec p q hp).2.1, (inv.came_spec p q hp).2.2⟩)
              came_exists := inv.came_exists
              came_start := inv.came_start
              g_start := inv.g_start
              g_zero := inv.g_zero
              sound := inv.sound
              chain := inv.closes_chain
              firstc := inv.first_close
              exit := Or.inl ⟨hopen, ?_, ?_, inv.goal_not_closed⟩ }
          · intro p hp
            rcases inv.finite_mem p hp with h | h
            · rw [hopen] at h
              exact absurd h (List.not_mem_nil p)
            · exact h
          · intro p hp q hq
            obtain ⟨mq, hmq, _⟩ := inv.closed_nbr p hp q hq
            rw [hmq]
            rfl
      | cons x xs =>
          rw [astarLoop, hopen] at hrun
          dsimp only at hrun
          rw [← hopen] at hrun
          by_cases hcur : (extractLowestFScore st.fScore st.openSet).1 = goal
          · rw [if_pos hcur] at hrun
            injection hrun with hrun
            subst hrun
            obtain ⟨hmem, hperm, hmin⟩ :=
              extractLowestFScore_spec st.fScore st.openSet (by rw [hopen]; simp)
            have hpop : st.gScore (extractLowestFScore st.fScore st.openSet).1 =
                some (distS cols rows grid start (extractLowestFScore st.fScore st.openSet).1) :=
              pop_opt inv hmem hmin
            rw [hcur] at hpop
            have hev : closeEvent manh goal (extractLowestFScore st.fScore st.openSet).1 st =
                ⟨ETag.close, goal.1, goal.2, distS cols rows grid start goal,
                  manh goal goal⟩ := by
              unfold closeEvent
              rw [hcur, hpop]
              rfl
            refine
              { came_spec := fun p q hp => ?_
                came_exists := inv.came_exists
                came_start := inv.came_start
                g_start := inv.g_start
                g_zero := inv.g_zero
                sound := inv.sound
                chain := ?_
                firstc := ?_
                exit := Or.inr ⟨hpop, ?_⟩ }
            · obtain ⟨_, hqa, gq, hgq, hgp⟩ := inv.came_spec p q hp
              exact ⟨hqa, gq, hgq, hgp⟩
            · dsimp only
              rw [hev, closeFs_append, closeFs_close]
              refine chain_append_le inv.closes_chain inv.closes_last ?_
              have hmemg : goal ∈ st.openSet := hcur ▸ hmem
              have hb := inv.open_bound goal hmemg
              rw [hpop] at hb
              simpa using hb
            · intro e he
              dsimp only at he
              rw [hev, closesOf_append, closesOf_close] at he
              by_cases hcl : closesOf st.reasoning = []
              · rw [hcl] at he
                simp at he
                have hopen_single : st.openSet = [start] := inv.init_seg hcl
                have hstart : (extractLowestFScore st.fScore st.openSet).1 = start := by
                  rw [hopen_single, extract_singleton]
                have hgs : goal = start := hcur.symm.trans hstart
                subst he
                simpa using hgs
              · rw [head?_append_ne hcl] at he
                exact inv.first_close e he
            · dsimp only
              rw [hev, closesOf_append, closesOf_close, List.getLast?_concat]
          · rw [if_neg hcur] at hrun
            have hmid := close_mid inv (by rw [hopen]; simp) hcur
            obtain ⟨hmid', hcov⟩ := relaxAll_mid hmid
            have hinv' := mid_to_inv hmid' hcov
            exact ih _ _ _ hinv' hrun

/-- Walking the back-pointers from a cell with g-score `n` pushes exactly
`n` cells before stopping at the start. -/
theorem reconLoop_len {cols rows : Nat} {grid : Grid} {start goal : Pos}
    {st : AState} (lo : LoopOut cols rows grid start goal st) :
    ∀ (fuel : Nat) (p : Pos) (acc : List Pos) (n : Nat) (l : List Pos),
    st.gScore p = some n →
    reconLoop st.cameFrom start fuel p acc = some l →
    l.length = acc.length + n := by
  intro fuel
  induction fuel with
  | zero =>
      intro p acc n l _ hrec
      exact Option.noConfusion hrec
  | succ fuel ih =>
      intro p acc n l hg hrec
      rw [reconLoop] at hrec
      by_cases hps : p = start
      · rw [if_pos hps] at hrec
        injection hrec with hrec
        subst hrec
        have : n = 0 := by
          subst hps
          rw [lo.g_start] at hg
          injection hg with hg
          omega
        omega
      · rw [if_neg hps] at hrec
        cases hcame : st.cameFrom p with
        | none =>
            exact absurd (hcame ▸ lo.came_exists p n hg hps) (by simp)
        | some q =>
            rw [hcame] at hrec
            obtain ⟨_, gq, hgq, hgp⟩ := lo.came_spec p q hcame
            have hn : n = gq + 1 := by
              rw [hg] at hgp
              simpa using hgp
            have := ih q (acc ++ [p]) gq l hgq hrec
            simp at this
            omega

/-- A passage path: a nonempty list of in-bounds passage cells from
`start` to `goal` whose consecutive entries are 4-adjacent.  This is the
spec's notion of a connecting path; its length counts cells, both
endpoints included. -/
def PassagePath (cols rows : Nat) (grid : Grid) (start goal : Pos) (l : List Pos) : Prop :=
  l ≠ [] ∧ l.head? = some start ∧ l.getLast? = some goal ∧
  (∀ p ∈ l, inB cols rows p ∧ passable grid p) ∧ List.Chain' adjacent l

instance (cols rows : Nat) (grid : Grid) (start goal : Pos) (l : List Pos) :
    Decidable (PassagePath cols rows grid start goal l) :=
  inferInstanceAs (Decidable (l ≠ [] ∧ l.head? = some start ∧ l.getLast? = some goal ∧
    (∀ p ∈ l, inB cols rows p ∧ passable grid p) ∧ List.Chain' adjacent l))

/-- The least number of cells of any passage path between the endpoints —
the "shortest passage distance" of the spec. -/
noncomputable def shortestPathLen (cols rows : Nat) (grid : Grid) (start goal : Pos) : Nat :=
  sInf {m | ∃ l, PassagePath cols rows grid start goal l ∧ l.length = m}

/-- Walking along a chain of adjacent good cells extends reachability. -/
theorem reaches_along {cols rows : Nat} {grid : Grid} {start : Pos} :
    ∀ (l : List Pos) (x : Pos) (k : Nat),
    Reaches cols rows grid start k x →
    List.Chain' adjacent (x :: l) →
    (∀ r ∈ l, inB cols rows r ∧ passable grid r) →
    Reaches cols rows grid start (k + l.length) ((x :: l).getLast (by simp))
  | [], x, k, hr, _, _ => by simpa using hr
  | y :: t, x, k, hr, hchain, hcells => by
      have hadj : adjacent x y := (List.chain'_cons.mp hchain).1
      have hstep : adjStep cols rows grid x y :=
        ⟨hadj, (hcells y (by simp)).1, (hcells y (by simp)).2⟩
      have hrec := reaches_along t y (k + 1) (hr.succ hstep)
        (List.chain'_cons.mp hchain).2
        (fun r hrm => hcells r (by simp [hrm]))
      have hlast : ((x :: y :: t).getLast (by simp)) = ((y :: t).getLast (by simp)) := by
        rw [List.getLast_cons]
      rw [hlast]
      have : k + (y :: t).length = k + 1 + t.length := by simp; omega
      rw [this]
      exact hrec

/-- From a passage path, a step-indexed reachability witness. -/
theorem passagePath_reaches {cols rows : Nat} {grid : Grid} {start goal : Pos}
    {l : List Pos} (h : PassagePath cols rows grid start goal l) :
    Reaches cols rows grid start (l.length - 1) goal := by
  obtain ⟨hne, hhead, hlast, hcells, hchain⟩ := h
  cases hl : l with
  | nil => subst hl; exact absurd rfl hne
  | cons a t =>
      subst hl
      have ha : a = start := by simpa using hhead
      have hz : Reaches cols rows grid start 0 a := by
        rw [ha]
        exact Reaches.zero
      have hr := reaches_along t a 0 hz hchain
        (fun r hrm => hcells r (by simp [hrm]))
      have hgl : (a :: t).getLast (by simp) = goal := by
        have := List.getLast?_eq_getLast (a :: t) (by simp)
        rw [this] at hlast
        injection hlast
      rw [hgl] at hr
      simpa using hr

/-- From reachability and a good start cell, a passage path of matching
cell count. -/
theorem reaches_passagePath {cols rows : Nat} {grid : Grid} {start goal : Pos}
    (hS : inB cols rows start) (hSp : passable grid start) {n : Nat}
    (h : Reaches cols rows grid start n goal) :
    ∃ l, PassagePath cols rows grid start goal l ∧ l.length = n + 1 := by
  induction h with
  | zero =>
      exact ⟨[start], ⟨by simp, by simp, by simp, fun p hp => by
        simp at hp; subst hp; exact ⟨hS, hSp⟩, by simp⟩, by simp⟩
  | @succ m p q hr hs ih =>
      obtain ⟨l, ⟨hne, hhead, hlast, hcells, hchain⟩, hlen⟩ := ih
      refine ⟨l ++ [q], ⟨by simp, ?_, by simp, ?_, ?_⟩, by simp [hlen]⟩
      · rwa [head?_append_ne hne]
      · intro r hr'
        rcases List.mem_append.mp hr' with h' | h'
        · exact hcells r h'
        · simp at h'
          subst h'
          exact ⟨hs.2.1, hs.2.2⟩
      · rw [List.chain'_append]
        refine ⟨hchain, by simp, ?_⟩
        intro a ha b hb
        simp at hb
        subst hb
        rw [List.getLast?_eq_getLast l hne] at ha hlast
        have hpl : l.getLast hne = p := by injection hlast
        have hal : a = l.getLast hne := by simpa using ha.symm
        rw [hal, hpl]
        exact hs.1

theorem solveSync_parts {ctx : ACtx} {h : Pos → Pos → Nat} {fuel : Nat} {sol : Solution}
    (hs : solveSync ctx h fuel = some sol) :
    ∃ st' plan,
      astarLoop ctx.cols ctx.rows ctx.grid h (ctx.goalX, ctx.goalY) fuel
        (astarInit ctx h) = some st' ∧
      reconstructPathInternal st'.cameFrom (ctx.startX, ctx.startY)
        (ctx.goalX, ctx.goalY) fuel = some plan ∧
      sol.reasoning = st'.reasoning ∧ sol.plan = plan := by
  unfold solveSync at hs
  cases hloop : astarLoop ctx.cols ctx.rows ctx.grid h (ctx.goalX, ctx.goalY) fuel
      (astarInit ctx h) with
  | none => rw [hloop] at hs; simp at hs
  | some st' =>
      rw [hloop] at hs
      simp only [Option.pure_def, Option.bind_eq_bind, Option.some_bind] at hs
      cases hrecon : reconstructPathInternal st'.cameFrom (ctx.startX, ctx.startY)
          (ctx.goalX, ctx.goalY) fuel with
      | none => rw [hrecon] at hs; simp at hs
      | some plan =>
          rw [hrecon] at hs
          simp at hs
          exact ⟨st', plan, rfl, hrecon, by rw [← hs], by rw [← hs]⟩

/-- All reachable cells are closed when the loop drains its open set. -/
theorem empty_exit_all_closed {cols rows : Nat} {grid : Grid} {start goal : Pos}
    {st : AState} (lo : LoopOut cols rows grid start goal st)
    (hfin : ∀ p, (st.gScore p).isSome → st.closedSet p = true)
    (hnbr : ∀ p, st.closedSet p = true → ∀ q, adjStep cols rows grid p q →
      (st.gScore q).isSome) :
    ∀ n p, Reaches cols rows grid start n p → st.closedSet p = true := by
  intro n p h
  induction h with
  | zero => exact hfin start (by simp [lo.g_start])
  | succ hr hs ih => exact hfin _ (hnbr _ ih _ hs)

/-- C7 (claim): on every solvable input, a finished `solveSync` run emits
a nonempty `close` sequence whose first event targets the start, whose
last event targets the goal, and whose `g + h` values are monotone
non-decreasing. -/
theorem C7_reasoning_structure (ctx : ACtx) (fuel : Nat) (sol : Solution)
    (hsolv : ∃ n, Reaches ctx.cols ctx.rows ctx.grid (ctx.startX, ctx.startY) n
      (ctx.goalX, ctx.goalY))
    (hrun : solveSync ctx heuristic fuel = some sol) :
    closesOf sol.reasoning ≠ [] ∧
    (∀ e ∈ (closesOf sol.reasoning).head?, ((e.x, e.y) : Pos) = (ctx.startX, ctx.startY)) ∧
    (∀ e ∈ (closesOf sol.reasoning).getLast?,
      ((e.x, e.y) : Pos) = (ctx.goalX, ctx.goalY)) ∧
    List.Chain' (· ≤ ·) (closeFs sol.reasoning) := by
  obtain ⟨st', plan, hloop, hrecon, hreas, hplan⟩ := solveSync_parts hrun
  have hloop' : astarLoop ctx.cols ctx.rows ctx.grid manh (ctx.goalX, ctx.goalY) fuel
      (astarInit ctx manh) = some st' := hloop
  have lo := astarLoop_out fuel _ 0 st' (astarInit_inv ctx) hloop'
  rcases lo.exit with ⟨_, hfin, hnbr, hgnc⟩ | ⟨hgoal, hlast⟩
  · exfalso
    obtain ⟨n, hn⟩ := hsolv
    have := empty_exit_all_closed lo hfin hnbr n _ hn
    rw [this] at hgnc
    exact Bool.noConfusion hgnc
  · refine ⟨?_, ?_, ?_, ?_⟩
    · rw [hreas]
      intro hempty
      rw [hempty] at hlast
      simp at hlast
    · rw [hreas]
      exact lo.firstc
    · rw [hreas]
      intro e he
      rw [hlast] at he
      simp at he
      subst he
      rfl
    · rw [hreas]
      exact lo.chain

/-- C6 (claim): on every grid whose start and goal are connected by a
passage path, the plan a finished `solveSync` run returns has exactly as
many cells as the shortest passage path. -/
theorem C6_plan_length_shortest (ctx : ACtx) (fuel : Nat) (sol : Solution)
    (hconn : ∃ l, PassagePath ctx.cols ctx.rows ctx.grid (ctx.startX, ctx.startY)
      (ctx.goalX, ctx.goalY) l)
    (hrun : solveSync ctx heuristic fuel = some sol) :
    sol.plan.length = shortestPathLen ctx.cols ctx.rows ctx.grid
      (ctx.startX, ctx.startY) (ctx.goalX, ctx.goalY) := by
  obtain ⟨st', plan, hloop, hrecon, hreas, hplan⟩ := solveSync_parts hrun
  have hloop' : astarLoop ctx.cols ctx.rows ctx.grid manh (ctx.goalX, ctx.goalY) fuel
      (astarInit ctx manh) = some st' := hloop
  have lo := astarLoop_out fuel _ 0 st' (astarInit_inv ctx) hloop'
  obtain ⟨l0, hpp0⟩ := hconn
  have hreach0 : Reaches ctx.cols ctx.rows ctx.grid (ctx.startX, ctx.startY)
      (l0.length - 1) (ctx.goalX, ctx.goalY) := passagePath_reaches hpp0
  rcases lo.exit with ⟨_, hfin, hnbr, hgnc⟩ | ⟨hgoal, _⟩
  · exfalso
    have := empty_exit_all_closed lo hfin hnbr _ _ hreach0
    rw [this] at hgnc
    exact Bool.noConfusion hgnc
  · have hstart_mem : (ctx.startX, ctx.startY) ∈ l0 := by
      have := hpp0.2.1
      exact List.mem_of_mem_head? this
    have hS : inB ctx.cols ctx.rows (ctx.startX, ctx.startY) :=
      (hpp0.2.2.2.1 _ hstart_mem).1
    have hSp : passable ctx.grid (ctx.startX, ctx.startY) :=
      (hpp0.2.2.2.1 _ hstart_mem).2
    set dg := distS ctx.cols ctx.rows ctx.grid (ctx.startX, ctx.startY)
      (ctx.goalX, ctx.goalY) with hdg
    have hplan_len : plan.length = dg + 1 := by
      unfold reconstructPathInternal at hrecon
      cases hrl : reconLoop st'.cameFrom (ctx.startX, ctx.startY) fuel
          (ctx.goalX, ctx.goalY) [] with
      | none => rw [hrl] at hrecon; simp at hrecon
      | some path =>
          rw [hrl] at hrecon
          simp at hrecon
          have := reconLoop_len lo fuel _ [] dg path hgoal hrl
          rw [← hrecon]
          simp at this ⊢
          omega
    have hreach_dg : Reaches ctx.cols ctx.rows ctx.grid (ctx.startX, ctx.startY) dg
        (ctx.goalX, ctx.goalY) := reaches_distS ⟨_, hreach0⟩
    obtain ⟨lw, hlw, hlwlen⟩ := reaches_passagePath hS hSp hreach_dg
    have hle1 : shortestPathLen ctx.cols ctx.rows ctx.grid (ctx.startX, ctx.startY)
        (ctx.goalX, ctx.goalY) ≤ dg + 1 := by
      apply Nat.sInf_le
      exact ⟨lw, hlw, hlwlen⟩
    have hle2 : dg + 1 ≤ shortestPathLen ctx.cols ctx.rows ctx.grid
        (ctx.startX, ctx.startY) (ctx.goalX, ctx.goalY) := by
      have hSne : {m | ∃ l, PassagePath ctx.cols ctx.rows ctx.grid
          (ctx.startX, ctx.startY) (ctx.goalX, ctx.goalY) l ∧ l.length = m}.Nonempty :=
        ⟨l0.length, l0, hpp0, rfl⟩
      apply le_csInf hSne
      rintro m ⟨l, hl, rfl⟩
      have hr := passagePath_reaches hl
      have hd := distS_le hr
      have hlne : l.length ≠ 0 := by
        intro h
        rw [List.length_eq_zero] at h
        exact hl.1 h
      omega
    rw [hplan, hplan_len]
    omega

/-- C4 (amended): when the goal is unreachable the main loop drains the
open set, and `solveSync` still returns the degenerate two-cell plan
`[start, goal]` produced by the reconstruction stopping at the missing
back-pointer — not an empty plan. -/
theorem C4_unreachable_degenerate_plan (ctx : ACtx) (fuel : Nat) (sol : Solution)
    (hunreach : ¬∃ n, Reaches ctx.cols ctx.rows ctx.grid (ctx.startX, ctx.startY) n
      (ctx.goalX, ctx.goalY))
    (hrun : solveSync ctx heuristic fuel = some sol) :
    sol.plan = [(ctx.startX, ctx.startY), (ctx.goalX, ctx.goalY)] := by
  obtain ⟨st', plan, hloop, hrecon, hreas, hplan⟩ := solveSync_parts hrun
  have hloop' : astarLoop ctx.cols ctx.rows ctx.grid manh (ctx.goalX, ctx.goalY) fuel
      (astarInit ctx manh) = some st' := hloop
  have lo := astarLoop_out fuel _ 0 st' (astarInit_inv ctx) hloop'
  have hne : (ctx.goalX, ctx.goalY) ≠ ((ctx.startX, ctx.startY) : Pos) := by
    intro h
    exact hunreach ⟨0, h ▸ Reaches.zero⟩
  have hcame : st'.cameFrom (ctx.goalX, ctx.goalY) = none := by
    cases hc : st'.cameFrom (ctx.goalX, ctx.goalY) with
    | none => rfl
    | some q =>
        obtain ⟨_, gq, _, hgp⟩ := lo.came_spec _ q hc
        exact absurd ⟨gq + 1, lo.sound _ _ hgp⟩ hunreach
  cases fuel with
  | zero =>
      unfold reconstructPathInternal at hrecon
      simp [reconLoop] at hrecon
  | succ f =>
      unfold reconstructPathInternal at hrecon
      rw [reconLoop, if_neg hne, hcame] at hrecon
      simp at hrecon
      rw [hplan, ← hrecon]

instance (cols rows : Nat) (grid : Grid) (p q : Pos) :
    Decidable (adjStep cols rows grid p q) :=
  inferInstanceAs (Decidable (adjacent p q ∧ inB cols rows q ∧ passable grid q))

/-- On the 1×3 grid `[[1,0,1]]` no step ever leaves the start cell. -/
theorem reach13_only_start : ∀ (n : Nat) (p : Pos),
    Reaches 3 1 [[1, 0, 1]] (0, 0) n p → p = (0, 0) := by
  intro n p h
  induction h with
  | zero => rfl
  | @succ m p' q hr hs ih =>
      obtain ⟨q1, q2⟩ := q
      rw [ih] at hs
      obtain ⟨ha, hb, hc⟩ := hs
      obtain ⟨hb1, hb2⟩ := hb
      rcases ha with ⟨h1, h2 | h2⟩ | ⟨h1, h2 | h2⟩ <;> dsimp only at h1 h2
      · omega
      · omega
      · exfalso
        have hq1 : q1 = 1 := by omega
        have hq2 : q2 = 0 := by omega
        subst hq1
        subst hq2
        exact hc rfl
      · omega

theorem unreach13 : ¬∃ n, Reaches 3 1 [[1, 0, 1]] (0, 0) n (2, 0) := by
  rintro ⟨n, hn⟩
  have := reach13_only_start n _ hn
  simp at this

/-- C4 (counterexample to the claim as stated): on the 1×3 grid
`[[1,0,1]]` with start `(0,0)` and unreachable goal `(2,0)`,
`astar.solveSync` terminates yet DOES return a plan — the two-cell list
`[(0,0), (2,0)]` — contradicting "terminates with no plan". -/
theorem C4_counterexample :
    (¬∃ n, Reaches 3 1 [[1, 0, 1]] (0, 0) n (2, 0)) ∧
    solveSync ⟨1, 3, [[1, 0, 1]], 0, 0, 2, 0⟩ heuristic 10 =
      some { reasoning := [⟨ETag.close, 0, 0, 0, 2⟩], plan := [(0, 0), (2, 0)] } ∧
    ({ reasoning := [⟨ETag.close, 0, 0, 0, 2⟩],
       plan := [(0, 0), (2, 0)] } : Solution).plan ≠ [] :=
  ⟨unreach13, by decide, by decide⟩

/-- C4 witness: the amended theorem applied to the concrete unreachable
1×3 instance. -/
theorem C4_unreachable_degenerate_plan_witness :
    (¬∃ n, Reaches 3 1 [[1, 0, 1]] (0, 0) n (2, 0)) ∧
    solveSync ⟨1, 3, [[1, 0, 1]], 0, 0, 2, 0⟩ heuristic 10 =
      some { reasoning := [⟨ETag.close, 0, 0, 0, 2⟩], plan := [(0, 0), (2, 0)] } ∧
    ({ reasoning := [⟨ETag.close, 0, 0, 0, 2⟩],
       plan := [(0, 0), (2, 0)] } : Solution).plan = [(0, 0), (2, 0)] :=
  ⟨unreach13, by decide,
    C4_unreachable_degenerate_plan ⟨1, 3, [[1, 0, 1]], 0, 0, 2, 0⟩ 10
      { reasoning := [⟨ETag.close, 0, 0, 0, 2⟩], plan := [(0, 0), (2, 0)] }
      unreach13 (by decide)⟩

/-- The 1×2 open corridor instance used by the solver witnesses. -/
def corridorCtx : ACtx := ⟨1, 2, [[1, 1]], 0, 0, 1, 0⟩

/-- The value `solveSync` computes on `corridorCtx` (checked by `decide`
in the witnesses). -/
def corridorSol : Solution :=
  { reasoning := [⟨ETag.close, 0, 0, 0, 1⟩, ⟨ETag.create, 1, 0, 1, 0⟩,
      ⟨ETag.close, 1, 0, 1, 0⟩]
    plan := [(0, 0), (1, 0)] }

theorem corridorPath : PassagePath 2 1 [[1, 1]] (0, 0) (1, 0) [(0, 0), (1, 0)] := by
  refine ⟨by simp, rfl, rfl, ?_, ?_⟩
  · intro p hp
    simp at hp
    rcases hp with rfl | rfl
    · exact ⟨by decide, by decide⟩
    · exact ⟨by decide, by decide⟩
  · exact List.chain'_pair.mpr (by decide)

/-- C6 witness: the optimality theorem applied to the 1×2 open corridor. -/
theorem C6_plan_length_shortest_witness :
    (∃ l, PassagePath 2 1 [[1, 1]] (0, 0) (1, 0) l) ∧
    solveSync corridorCtx heuristic 10 = some corridorSol ∧
    corridorSol.plan.length = shortestPathLen 2 1 [[1, 1]] (0, 0) (1, 0) :=
  ⟨⟨[(0, 0), (1, 0)], corridorPath⟩, by decide,
    C6_plan_length_shortest corridorCtx 10 corridorSol
      ⟨[(0, 0), (1, 0)], corridorPath⟩ (by decide)⟩

/-- C7 witness: the trace-structure theorem applied to the 1×2 corridor. -/
theorem C7_reasoning_structure_witness :
    (∃ n, Reaches 2 1 [[1, 1]] (0, 0) n (1, 0)) ∧
    solveSync corridorCtx heuristic 10 = some corridorSol ∧
    (closesOf corridorSol.reasoning ≠ [] ∧
     (∀ e ∈ (closesOf corridorSol.reasoning).head?,
       ((e.x, e.y) : Pos) = ((0 : Nat), (0 : Nat))) ∧
     (∀ e ∈ (closesOf corridorSol.reasoning).getLast?,
       ((e.x, e.y) : Pos) = ((1 : Nat), (0 : Nat))) ∧
     List.Chain' (· ≤ ·) (closeFs corridorSol.reasoning)) :=
  ⟨⟨1, Reaches.zero.succ (by decide)⟩, by decide,
    C7_reasoning_structure corridorCtx 10 corridorSol
      ⟨1, Reaches.zero.succ (by decide)⟩ (by decide)⟩

/-! ## C2: the first draw of `seedLCG(42)` -/

theorem lcgState42 : lcgState 42 1 = 1083814273 := by decide

/-- C2 (counterexample to the claim as stated): the first draw of
`seedLCG(42)` is not `3572282541 / 2^32`; the recurrence the spec itself
cites gives `(1664525*42 + 1013904223) mod 2^32 = 1083814273`. -/
theorem C2_counterexample : lcgVal 42 1 ≠ 3572282541 / 4294967296 := by
  unfold lcgVal
  rw [lcgState42]
  norm_num

/-- C2 (amended): the first draw of `seedLCG(42)` equals
`1083814273 / 2^32`, where a draw advances the sole 32-bit state by
`state' = (1664525 * state + 1013904223) mod 2^32` and returns
`state' / 2^32` as a value in `[0, 1)`. -/
theorem C2_first_draw_amended :
    lcgVal 42 1 = 1083814273 / 4294967296 ∧
    lcgState 42 1 = (1664525 * 42 + 1013904223) % 4294967296 ∧
    (∀ seed i, lcgState seed (i + 1) = lcgNext (lcgState seed i)) ∧
    (∀ seed i, 0 ≤ lcgVal seed i ∧ lcgVal seed i < 1) := by
  refine ⟨?_, by decide, fun seed i => rfl,
    fun seed i => ⟨lcgVal_nonneg seed i, lcgVal_lt_one seed i⟩⟩
  unfold lcgVal
  rw [lcgState42]
  norm_num

/-! ## Serializer: `serializeExample` of `headless_gen/serializer.js` -/

/-- A maze spec `{ grid, startX, startY, goalX, goalY }`. -/
structure MazeSpec where
  grid : Grid
  startX : Nat
  startY : Nat
  goalX : Nat
  goalY : Nat
deriving DecidableEq

/-- Decimal digits, most significant first, computed with a structural
fuel so that the kernel can evaluate it (`fuel ≥ n + 1` always suffices
because `n / 10 < n`). -/
def natCharsFuel : Nat → Nat → List Char
  | 0, _ => []
  | fuel + 1, n =>
    if n < 10 then [Char.ofNat (48 + n)]
    else natCharsFuel fuel (n / 10) ++ [Char.ofNat (48 + n % 10)]

/-- Decimal digits of `n`, most significant first (the digits
`Number.prototype.toString` produces: no leading zeros). -/
def natChars (n : Nat) : List Char := natCharsFuel (n + 1) n

/-- Decimal string of a natural number. -/
def natStr (n : Nat) : String := String.mk (natChars n)

/-- One-character JSON escaping exactly as `JSON.stringify` performs it
on string values. -/
def hexDigit (n : Nat) : Char := Char.ofNat (if n < 10 then 48 + n else 87 + n)

def escChar (c : Char) : List Char :=
  if c = '"' then ['\\', '"']
  else if c = '\\' then ['\\', '\\']
  else if c = Char.ofNat 8 then ['\\', 'b']
  else if c = Char.ofNat 9 then ['\\', 't']
  else if c = Char.ofNat 10 then ['\\', 'n']
  else if c = Char.ofNat 12 then ['\\', 'f']
  else if c = Char.ofNat 13 then ['\\', 'r']
  else if c.toNat < 32 then
    ['\\', 'u', '0', '0', hexDigit (c.toNat / 16), hexDigit (c.toNat % 16)]
  else [c]

def escapeList (l : List Char) : List Char := l.flatMap escChar

/-- `tokens.join(' ')` at the character level. -/
def joinTokens : List String → List Char
  | [] => []
  | [t] => t.data
  | t :: rest => t.data ++ ' ' :: joinTokens rest

/-- The event tag words of the trace. -/
def tagStr : ETag → String
  | ETag.close => "close"
  | ETag.create => "create"

/-- The five tokens a reasoning event contributes (spread by `push(...ev)`
in the source): tag, x, y, `'c' + g`, `'c' + h`. -/
def evTokens (e : REvent) : List String :=
  [tagStr e.tag, natStr e.x, natStr e.y, "c" ++ natStr e.gval, "c" ++ natStr e.hval]

/-- The token array `serializeExample` builds, in push order. -/
def serializeTokens (spec : MazeSpec) (solution : Solution) : List String :=
  ["query", "start", natStr spec.startX, natStr spec.startY, "goal",
    natStr spec.goalX, natStr spec.goalY]
  ++ (List.range spec.grid.length).flatMap (fun y =>
      (List.range (spec.grid.headD []).length).flatMap (fun x =>
        if cellAt spec.grid y x = 0 then ["wall", natStr x, natStr y] else []))
  ++ ["reasoning"] ++ solution.reasoning.flatMap evTokens
  ++ ["solution"] ++ solution.plan.flatMap (fun p => ["plan", natStr p.1, natStr p.2])
  ++ ["end"]

/-- `serializeExample({spec, solution, ...})`: tokens joined by single
spaces, wrapped via `JSON.stringify({text})`, newline-terminated. -/
def serializeExample (spec : MazeSpec) (solution : Solution) : String :=
  String.mk (("\x7b\"text\":\"").data
    ++ escapeList (joinTokens (serializeTokens spec solution))
    ++ ("\"\x7d\n").data)

/-- Modelled from the spec's wording of the line format: the wall section
lists every wall cell of the row-major cell enumeration (y outer, x
inner), and the token text is embedded in the JSON object verbatim. -/
def specFormatLine (spec : MazeSpec) (solution : Solution) : String :=
  let wallCells := ((List.range spec.grid.length).flatMap (fun y =>
      (List.range (spec.grid.headD []).length).map (fun x => ((x, y) : Pos)))).filter
      (fun p => decide (cellAt spec.grid p.2 p.1 = 0))
  let toks :=
    ["query", "start", natStr spec.startX, natStr spec.startY, "goal",
      natStr spec.goalX, natStr spec.goalY]
    ++ wallCells.flatMap (fun p => ["wall", natStr p.1, natStr p.2])
    ++ ["reasoning"] ++ solution.reasoning.flatMap evTokens
    ++ ["solution"] ++ solution.plan.flatMap (fun p => ["plan", natStr p.1, natStr p.2])
    ++ ["end"]
  String.mk (("\x7b\"text\":\"").data ++ joinTokens toks ++ ("\"\x7d\n").data)

theorem filter_flatMap {α β : Type} (l : List α) (p : α → Bool) (f : α → List β) :
    (l.filter p).flatMap f = l.flatMap (fun a => if p a then f a else []) := by
  induction l with
  | nil => rfl
  | cons a t ih =>
      by_cases h : p a = true
      · simp [List.filter_cons, h, ih]
      · simp [List.filter_cons, h, ih]

theorem wall_tokens_eq (grid : Grid) :
    (List.range grid.length).flatMap (fun y =>
      (List.range (grid.headD []).length).flatMap (fun x =>
        if cellAt grid y x = 0 then ["wall", natStr x, natStr y] else [])) =
    (((List.range grid.length).flatMap (fun y =>
      (List.range (grid.headD []).length).map (fun x => ((x, y) : Pos)))).filter
      (fun p => decide (cellAt grid p.2 p.1 = 0))).flatMap
      (fun p => ["wall", natStr p.1, natStr p.2]) := by
  rw [filter_flatMap, List.flatMap_assoc]
  apply congrArg
  funext y
  rw [List.flatMap_map]
  apply congrArg
  funext x
  by_cases h : cellAt grid y x = 0 <;> simp [h]

/-- A token whose characters survive JSON escaping verbatim. -/
def safeTok (t : String) : Prop := ∀ c ∈ t.data, escChar c = [c]

instance (t : String) : Decidable (safeTok t) :=
  inferInstanceAs (Decidable (∀ c ∈ t.data, escChar c = [c]))

theorem escChar_digit (d : Nat) (h : d < 10) :
    escChar (Char.ofNat (48 + d)) = [Char.ofNat (48 + d)] := by
  interval_cases d <;> decide

theorem natCharsFuel_safe : ∀ (fuel n : Nat), ∀ c ∈ natCharsFuel fuel n, escChar c = [c]
  | 0, _, c, hc => absurd hc (List.not_mem_nil c)
  | fuel + 1, n, c, hc => by
      rw [natCharsFuel] at hc
      split at hc
      · rename_i h
        simp at hc
        subst hc
        exact escChar_digit n h
      · rw [List.mem_append] at hc
        rcases hc with hc | hc
        · exact natCharsFuel_safe fuel (n / 10) c hc
        · simp at hc
          subst hc
          exact escChar_digit (n % 10) (Nat.mod_lt _ (by norm_num))

theorem natChars_safe (n : Nat) : ∀ c ∈ natChars n, escChar c = [c] :=
  natCharsFuel_safe (n + 1) n

theorem safeTok_natStr (n : Nat) : safeTok (natStr n) := natChars_safe n

theorem safeTok_c_natStr (n : Nat) : safeTok ("c" ++ natStr n) := by
  intro c hc
  rw [String.data_append] at hc
  rcases List.mem_append.mp hc with hc | hc
  · simp at hc
    subst hc
    decide
  · exact natChars_safe n c hc

theorem serializeTokens_safe (spec : MazeSpec) (sol : Solution) :
    ∀ t ∈ serializeTokens spec sol, safeTok t := by
  intro t ht
  unfold serializeTokens at ht
  rcases List.mem_append.mp ht with ht | ht
  swap
  · simp at ht
    subst ht
    decide
  rcases List.mem_append.mp ht with ht | ht
  swap
  · rw [List.mem_flatMap] at ht
    obtain ⟨p, _, hp⟩ := ht
    simp at hp
    rcases hp with rfl | rfl | rfl
    · decide
    · exact safeTok_natStr _
    · exact safeTok_natStr _
  rcases List.mem_append.mp ht with ht | ht
  swap
  · simp at ht
    subst ht
    decide
  rcases List.mem_append.mp ht with ht | ht
  swap
  · rw [List.mem_flatMap] at ht
    obtain ⟨e, _, he⟩ := ht
    unfold evTokens at he
    simp at he
    rcases he with rfl | rfl | rfl | rfl | rfl
    · cases e.tag <;> decide
    · exact safeTok_natStr _
    · exact safeTok_natStr _
    · exact safeTok_c_natStr _
    · exact safeTok_c_natStr _
  rcases List.mem_append.mp ht with ht | ht
  swap
  · simp at ht
    subst ht
    decide
  rcases List.mem_append.mp ht with ht | ht
  · simp at ht
    rcases ht with rfl | rfl | rfl | rfl | rfl | rfl | rfl
    · decide
    · decide
    · exact safeTok_natStr _
    · exact safeTok_natStr _
    · decide
    · exact safeTok_natStr _
    · exact safeTok_natStr _
  · rw [List.mem_flatMap] at ht
    obtain ⟨y, _, hy⟩ := ht
    rw [List.mem_flatMap] at hy
    obtain ⟨x, _, hx⟩ := hy
    by_cases h : cellAt spec.grid y x = 0
    · rw [if_pos h] at hx
      simp at hx
      rcases hx with rfl | rfl | rfl
      · decide
      · exact safeTok_natStr _
      · exact safeTok_natStr _
    · rw [if_neg h] at hx
      exact absurd hx (List.not_mem_nil t)

theorem joinTokens_safe : ∀ (ts : List String), (∀ t ∈ ts, safeTok t) →
    ∀ c ∈ joinTokens ts, escChar c = [c]
  | [], _, c, hc => absurd hc (List.not_mem_nil c)
  | [t], hts, c, hc => hts t (by simp) c hc
  | t :: t' :: rest, hts, c, hc => by
      have hjoin : joinTokens (t :: t' :: rest) = t.data ++ ' ' :: joinTokens (t' :: rest) :=
        rfl
      rw [hjoin] at hc
      rcases List.mem_append.mp hc with hc | hc
      · exact hts t (by simp) c hc
      · rcases List.mem_cons.mp hc with rfl | hc
        · decide
        · exact joinTokens_safe (t' :: rest) (fun u hu => hts u (by simp [hu])) c hc

theorem escape_id : ∀ (l : List Char), (∀ c ∈ l, escChar c = [c]) → escapeList l = l
  | [], _ => rfl
  | a :: t, h => by
      have h1 : escapeList (a :: t) = escChar a ++ escapeList t := rfl
      rw [h1, h a (by simp), escape_id t (fun c hc => h c (by simp [hc]))]
      rfl

/-- C8 (claim): for every maze spec with at least one row and every
solver output, `serializeExample` returns exactly the JSON line
`{"text": T}` plus one newline, where `T` joins with single spaces, in
order: the query header, then `wall x y` for every wall cell scanned
row-major (y outer, x inner), then `reasoning` with every event
flattened in emission order, then `solution` with `plan x y` per plan
cell, then `end`; integers in decimal and cost tokens as `c` plus the
integer. -/
theorem C8_serialize_format (spec : MazeSpec) (sol : Solution)
    (hg : spec.grid ≠ []) :
    serializeExample spec sol = specFormatLine spec sol := by
  unfold serializeExample specFormatLine
  rw [escape_id _ (joinTokens_safe _ (serializeTokens_safe spec sol))]
  unfold serializeTokens
  rw [wall_tokens_eq]

/-- C8 witness: the serializer applied to the 1×2 corridor instance,
with the line spelled out. -/
theorem C8_serialize_format_witness :
    (([[1, 1]] : Grid) ≠ []) ∧
    serializeExample ⟨[[1, 1]], 0, 0, 1, 0⟩ corridorSol =
      specFormatLine ⟨[[1, 1]], 0, 0, 1, 0⟩ corridorSol ∧
    serializeExample ⟨[[1, 1]], 0, 0, 1, 0⟩ corridorSol =
      "\x7b\"text\":\"query start 0 0 goal 1 0 reasoning close 0 0 c0 c1 create 1 0 c1 c0 close 1 0 c1 c0 solution plan 0 0 plan 1 0 end\"\x7d\n" :=
  ⟨by simp, C8_serialize_format ⟨[[1, 1]], 0, 0, 1, 0⟩ corridorSol (by simp), by decide⟩

/-! ## PRNG-stream helpers shared by the generator embeddings

A generator consumes the shared PRNG through a stream `f : Nat → Nat` of
32-bit states (position `k` is the state produced by the `k`-th call);
`drawVal` applies the `>>> 0` reduction.  `Math.floor(prng() * n)` is
`drawVal * n / 2^32` (the double product is exact at these magnitudes)
and `prng() < 0.5` is `drawVal < 2^31`. -/

def drawVal (f : Nat → Nat) (k : Nat) : Nat := f k % 4294967296

/-- `Math.floor(prng() * n)` for the `k`-th draw. -/
def randInt (f : Nat → Nat) (k n : Nat) : Nat := drawVal f k * n / 4294967296

/-- `prng() < num/den` for a rational probability parameter, written by
cross-multiplication so it evaluates on `Nat`; `drawLt_iff` certifies it
against the real comparison `drawVal / 2^32 < num / den`. -/
def drawLt (f : Nat → Nat) (k num den : Nat) : Bool :=
  decide (drawVal f k * den < num * 4294967296)

theorem drawLt_iff (f : Nat → Nat) (k num den : Nat) (hden : 0 < den) :
    drawLt f k num den = true ↔
      (drawVal f k : ℚ) / 4294967296 < (num : ℚ) / den := by
  unfold drawLt
  rw [decide_eq_true_iff, div_lt_div_iff (by norm_num) (by exact_mod_cast hden)]
  exact_mod_cast Iff.rfl

theorem randInt_lt (f : Nat → Nat) (k n : Nat) (hn : 0 < n) : randInt f k n < n := by
  unfold randInt drawVal
  have hv : f k % 4294967296 < 4294967296 := Nat.mod_lt _ (by norm_num)
  rw [Nat.div_lt_iff_lt_mul (by norm_num)]
  calc f k % 4294967296 * n < 4294967296 * n :=
        Nat.mul_lt_mul_of_lt_of_le hv (Nat.le_refl n) hn
    _ = n * 4294967296 := Nat.mul_comm _ _

/-- Swap two positions of an array (`[arr[i], arr[j]] = [arr[j], arr[i]]`). -/
def swapIdx {α : Type} (l : List α) (i j : Nat) : List α :=
  match l.get? i, l.get? j with
  | some a, some b => (l.set i b).set j a
  | _, _ => l

/-- The Fisher-Yates loop body for indices `i = hi, hi-1, …, 1` (the
second argument is the running draw position). -/
def shuffleFrom {α : Type} (f : Nat → Nat) : List α → Nat → Nat → List α × Nat
  | arr, k, 0 => (arr, k)
  | arr, k, i + 1 =>
      let j := randInt f k (i + 2)
      shuffleFrom f (swapIdx arr (i + 1) j) (k + 1) i

/-- `shuffle(arr)`: Fisher-Yates from the highest index downward. -/
def shuffle {α : Type} (f : Nat → Nat) (arr : List α) (k : Nat) : List α × Nat :=
  match arr.length with
  | 0 => (arr, k)
  | len + 1 => shuffleFrom f arr k len

/-- All-wall grid `Array(rows).fill(null).map(() => Array(cols).fill(0))`. -/
def mkGrid (rows cols : Nat) : Grid := List.replicate rows (List.replicate cols 0)

/-- The loop `for (y = offset; y < bound; y += 2)` as the list of visited
values in order. -/
def stepTwo (offset bound : Nat) : List Nat :=
  (List.range bound).filter (fun v => decide (offset ≤ v ∧ (v - offset) % 2 = 0))

/-! ## Kruskal: `generateSync` of `generators/kruskal.js` -/

/-- `roomId[key]` lookup: the index of a room coordinate. -/
def roomId (rooms : List Pos) (p : Pos) : Option Nat := rooms.findIdx? (fun q => q = p)

/-- The edge list between two-step neighbours, right then down per room,
rooms in row-major order; each edge carries the intermediate wall. -/
def kruskalEdges (rooms : List Pos) (rows cols : Nat) : List (Nat × Nat × Nat × Nat) :=
  rooms.enum.flatMap (fun e =>
    (if e.2.1 + 2 < cols then
      match roomId rooms (e.2.1 + 2, e.2.2) with
      | some j => [(e.1, j, e.2.1 + 1, e.2.2)]
      | none => []
    else [])
    ++
    (if e.2.2 + 2 < rows then
      match roomId rooms (e.2.1, e.2.2 + 2) with
      | some j => [(e.1, j, e.2.1, e.2.2 + 1)]
      | none => []
    else []))

/-- Union-find `find` without path compression (compression only changes
the parent array's shape, never which root `find` returns); the fuel is
the array length, enough for the forest the carve loop builds. -/
def ufFind (parent : List Nat) : Nat → Nat → Nat
  | 0, i => i
  | fuel + 1, i =>
      let p := parent.getD i i
      if p = i then i else ufFind parent fuel p

/-- The carve loop over shuffled edges: union distinct sets and knock out
the intermediate wall. -/
def kruskalCarve (n : Nat) (edges : List (Nat × Nat × Nat × Nat)) (g : Grid) : Grid :=
  (edges.foldl (fun acc e =>
    let ru := ufFind acc.1 (n + 1) e.1
    let rv := ufFind acc.1 (n + 1) e.2.1
    if ru ≠ rv then (acc.1.set ru rv, setCell acc.2 e.2.2.2 e.2.2.1 1)
    else acc) (List.range n, g)).2

/-- The rejection sampler for a random floor cell
(`do { x = …; y = … } while (grid[y][x] === 0)`). -/
def kruskalPick (f : Nat → Nat) (grid : Grid) (rows cols : Nat) :
    Nat → Nat → Option (Pos × Nat)
  | 0, _ => none
  | fuel + 1, k =>
      let x := randInt f k cols
      let y := randInt f (k + 1) rows
      if cellAt grid y x = 0 then kruskalPick f grid rows cols fuel (k + 2)
      else some ((x, y), k + 2)

/-- The room list of `kruskal.generateSync` (row-major, parity `offset`
from the first draw). -/
def kruskalRooms (f : Nat → Nat) (rows cols : Nat) : List Pos :=
  let offset := if drawLt f 0 1 2 then 0 else 1
  (stepTwo offset rows).flatMap (fun y =>
    (stepTwo offset cols).map (fun x => ((x, y) : Pos)))

/-- The carved grid of `kruskal.generateSync` (rooms opened, then the
shuffled spanning edges knocked out). -/
def kruskalGrid (f : Nat → Nat) (rows cols : Nat) : Grid :=
  let rooms := kruskalRooms f rows cols
  kruskalCarve rooms.length (shuffle f (kruskalEdges rooms rows cols) 1).1
    (rooms.foldl (fun g p => setCell g p.2 p.1 1) (mkGrid rows cols))

/-- The draw position after the edge shuffle of `kruskal.generateSync`
(one offset draw, then one per Fisher-Yates step). -/
def kruskalK0 (f : Nat → Nat) (rows cols : Nat) : Nat :=
  (shuffle f (kruskalEdges (kruskalRooms f rows cols) rows cols) 1).2

/-- `kruskal.generateSync({rows, cols, prng})`. -/
def kruskalGenerateSync (f : Nat → Nat) (rows cols fuel : Nat) : Option MazeSpec :=
  let grid2 := kruskalGrid f rows cols
  match kruskalPick f grid2 rows cols fuel (kruskalK0 f rows cols) with
  | none => none
  | some (s, k1) =>
    match kruskalPick f grid2 rows cols fuel k1 with
    | none => none
    | some (g1, k2) =>
      if s = g1 then
        match kruskalPick f grid2 rows cols fuel k2 with
        | none => none
        | some (g2, _) => some ⟨grid2, s.1, s.2, g2.1, g2.2⟩
      else some ⟨grid2, s.1, s.2, g1.1, g1.2⟩

/-! ## Grid-value bookkeeping for the generators -/

/-- Every cell of the grid reads `0` or `1`. -/
def GridBinary (g : Grid) : Prop := ∀ y x, cellAt g y x = 0 ∨ cellAt g y x = 1

theorem cellAt_setCell_cases (g : Grid) (y x v y' x' : Nat) :
    cellAt (setCell g y x v) y' x' = v ∨ cellAt (setCell g y x v) y' x' = cellAt g y' x' := by
  unfold cellAt setCell
  simp only [List.getD_eq_getElem?_getD]
  rcases Nat.lt_or_ge y g.length with hy | hy
  · rcases eq_or_ne y y' with rfl | hne
    · rw [List.getElem?_set_self hy, Option.getD_some]
      rcases Nat.lt_or_ge x (g[y]?.getD []).length with hx | hx
      · rcases eq_or_ne x x' with rfl | hxne
        · left
          rw [List.getElem?_set_self hx, Option.getD_some]
        · right
          rw [List.getElem?_set_ne hxne]
      · right
        rw [List.set_eq_of_length_le hx]
    · right
      rw [List.getElem?_set_ne hne]
  · right
    rw [List.set_eq_of_length_le hy]

theorem gridBinary_mkGrid (rows cols : Nat) : GridBinary (mkGrid rows cols) := by
  intro y x
  left
  unfold mkGrid cellAt
  simp only [List.getD_eq_getElem?_getD, List.getElem?_replicate]
  split
  · simp only [Option.getD_some, List.getElem?_replicate]
    split
    · rfl
    · rfl
  · simp

theorem gridBinary_setCell (g : Grid) (y x : Nat) (hg : GridBinary g) :
    GridBinary (setCell g y x 1) := by
  intro y' x'
  rcases cellAt_setCell_cases g y x 1 y' x' with h | h
  · right; exact h
  · rw [h]; exact hg y' x'

theorem gridBinary_foldl_rooms (rooms : List Pos) :
    ∀ g : Grid, GridBinary g →
      GridBinary (rooms.foldl (fun g p => setCell g p.2 p.1 1) g) := by
  induction rooms with
  | nil => intro g hg; exact hg
  | cons r rs ih =>
      intro g hg
      exact ih _ (gridBinary_setCell _ _ _ hg)

theorem gridBinary_carve (n : Nat) (edges : List (Nat × Nat × Nat × Nat)) :
    ∀ st : List Nat × Grid, GridBinary st.2 →
      GridBinary (edges.foldl (fun acc e =>
        let ru := ufFind acc.1 (n + 1) e.1
        let rv := ufFind acc.1 (n + 1) e.2.1
        if ru ≠ rv then (acc.1.set ru rv, setCell acc.2 e.2.2.2 e.2.2.1 1)
        else acc) st).2 := by
  induction edges with
  | nil => intro st hst; exact hst
  | cons e es ih =>
      intro st hst
      dsimp only [List.foldl]
      split
      · exact ih _ (gridBinary_setCell _ _ _ hst)
      · exact ih _ hst

theorem gridBinary_kruskalCarve (n : Nat) (edges : List (Nat × Nat × Nat × Nat))
    (g : Grid) (hg : GridBinary g) : GridBinary (kruskalCarve n edges g) := by
  unfold kruskalCarve
  exact gridBinary_carve n edges (List.range n, g) hg

theorem kruskalPick_passable (f : Nat → Nat) (grid : Grid) (rows cols : Nat) :
    ∀ fuel k p k1, kruskalPick f grid rows cols fuel k = some (p, k1) →
      cellAt grid p.2 p.1 ≠ 0 := by
  intro fuel
  induction fuel with
  | zero => intro k p k1 h; exact absurd h (by simp [kruskalPick])
  | succ fuel ih =>
      intro k p k1 h
      unfold kruskalPick at h
      dsimp only at h
      split at h
      · exact ih _ _ _ h
      · rename_i hcell
        injection h with h1
        injection h1 with h2 h3
        subst h2
        exact hcell

theorem gridBinary_kruskalGrid (f : Nat → Nat) (rows cols : Nat) :
    GridBinary (kruskalGrid f rows cols) := by
  unfold kruskalGrid
  exact gridBinary_kruskalCarve _ _ _
    (gridBinary_foldl_rooms _ _ (gridBinary_mkGrid rows cols))

theorem kruskalGenerateSync_passages (f : Nat → Nat) (rows cols fuel : Nat) (spec : MazeSpec)
    (h : kruskalGenerateSync f rows cols fuel = some spec) :
    cellAt spec.grid spec.startY spec.startX = 1 ∧ cellAt spec.grid spec.goalY spec.goalX = 1 := by
  simp only [kruskalGenerateSync] at h
  split at h
  · exact absurd h (by simp)
  · rename_i s k1 hpick1
    have hbin := gridBinary_kruskalGrid f rows cols
    have hs := kruskalPick_passable f _ rows cols fuel _ s k1 hpick1
    split at h
    · exact absurd h (by simp)
    · rename_i g1 k2 hpick2
      have hg1 := kruskalPick_passable f _ rows cols fuel _ g1 k2 hpick2
      split at h
      · split at h
        · exact absurd h (by simp)
        · rename_i g2 k3 hpick3
          have hg2 := kruskalPick_passable f _ rows cols fuel _ g2 k3 hpick3
          injection h with h1
          subst h1
          dsimp only
          constructor
          · rcases hbin s.2 s.1 with h0 | h1
            · exact absurd h0 hs
            · exact h1
          · rcases hbin g2.2 g2.1 with h0 | h1
            · exact absurd h0 hg2
            · exact h1
      · injection h with h1
        subst h1
        dsimp only
        constructor
        · rcases hbin s.2 s.1 with h0 | h1
          · exact absurd h0 hs
          · exact h1
        · rcases hbin g1.2 g1.1 with h0 | h1
          · exact absurd h0 hg1
          · exact h1

/-! ## Wilson: `generateSync` of the loop-erased-random-walk generator -/

/-- Two-step neighbour with the walk's bounds check
(`nx < 0 || nx >= cols || ny < 0 || ny >= rows` ⇒ skip). -/
def nbr2 (cols rows : Nat) (p : Pos) (d : Int × Int) : Option Pos :=
  let nx : Int := (p.1 : Int) + d.1
  let ny : Int := (p.2 : Int) + d.2
  if 0 ≤ nx ∧ nx < cols ∧ 0 ≤ ny ∧ ny < rows then some (nx.toNat, ny.toNat) else none

/-- `dirs = [[2,0],[-2,0],[0,2],[0,-2]]` of `wilson.generateSync`. -/
def wDirs : List (Int × Int) := [(2, 0), (-2, 0), (0, 2), (0, -2)]

/-- The rejection loop `do { root = rooms[…] } while (inMaze.has(root))`. -/
def wilsonRoot (f : Nat → Nat) (rooms : List Pos) (inMaze : List Pos) :
    Nat → Nat → Option (Pos × Nat)
  | 0, _ => none
  | fuel + 1, k =>
      match rooms[randInt f k rooms.length]? with
      | none => none
      | some r =>
          if r ∈ inMaze then wilsonRoot f rooms inMaze fuel (k + 1)
          else some (r, k + 1)

/-- One loop-erased random walk (`while (true)` of `generateSync`): `path`
doubles as the `indexMap` (it never holds a duplicate, and `indexMap[key]`
is the key's position in `path`). -/
def wilsonWalk (f : Nat → Nat) (rows cols : Nat) (inMaze : List Pos) :
    List Pos → Nat → Nat → Option (List Pos × Nat)
  | _, _, 0 => none
  | path, k, fuel + 1 =>
      match path.getLast? with
      | none => none
      | some c =>
          match nbr2 cols rows c (wDirs.getD (randInt f k 4) (0, 0)) with
          | none => wilsonWalk f rows cols inMaze path (k + 1) fuel
          | some np =>
              if np ∈ inMaze then some (path ++ [np], k + 1)
              else
                match path.findIdx? (fun q => decide (q = np)) with
                | some idx => wilsonWalk f rows cols inMaze (path.take (idx + 1)) (k + 1) fuel
                | none => wilsonWalk f rows cols inMaze (path ++ [np]) (k + 1) fuel

/-- Carve a finished walk into the maze: each new cell joins `inMaze` and
becomes a passage; each consecutive pair knocks out the midpoint wall. -/
def wilsonCarve (path : List Pos) (st : List Pos × Grid) : List Pos × Grid :=
  path.enum.foldl (fun acc e =>
    let c := e.2
    let acc1 := if c ∈ acc.1 then acc else (c :: acc.1, setCell acc.2 c.2 c.1 1)
    if 0 < e.1 then
      match path[e.1 - 1]? with
      | some p => (acc1.1, setCell acc1.2 ((p.2 + c.2) / 2) ((p.1 + c.1) / 2) 1)
      | none => acc1
    else acc1) st

/-- `while (inMaze.size < rooms.length)`: pick an outside root, walk,
carve. -/
def wilsonOuter (f : Nat → Nat) (rows cols : Nat) (rooms : List Pos) (fuelI : Nat) :
    Nat → List Pos → Grid → Nat → Option (Grid × Nat)
  | 0, _, _, _ => none
  | fuelO + 1, inMaze, grid, k =>
      if rooms.length ≤ inMaze.length then some (grid, k)
      else
        match wilsonRoot f rooms inMaze fuelI k with
        | none => none
        | some (root, k1) =>
            match wilsonWalk f rows cols inMaze [root] k1 fuelI with
            | none => none
            | some (path, k2) =>
                let st := wilsonCarve path (inMaze, grid)
                wilsonOuter f rows cols rooms fuelI fuelO st.1 st.2 k2

/-- The floor list: row-major cells with `grid[y][x] === 1`. -/
def wilsonFloors (grid : Grid) (rows cols : Nat) : List Pos :=
  (List.range rows).flatMap (fun y =>
    (List.range cols).filterMap (fun x =>
      if cellAt grid y x = 1 then some ((x, y) : Pos) else none))

/-- `wilson.generateSync({rows, cols, prng})`. -/
def wilsonGenerateSync (f : Nat → Nat) (rows cols fuel : Nat) : Option MazeSpec :=
  let offset := if drawLt f 0 1 2 then 0 else 1
  let rooms := (stepTwo offset rows).flatMap (fun y =>
    (stepTwo offset cols).map (fun x => ((x, y) : Pos)))
  match rooms[randInt f 1 rooms.length]? with
  | none => none
  | some first =>
    let grid1 := setCell (mkGrid rows cols) first.2 first.1 1
    match wilsonOuter f rows cols rooms fuel fuel [first] grid1 2 with
    | none => none
    | some (grid2, k) =>
      let floors := wilsonFloors grid2 rows cols
      match floors[randInt f k floors.length]? with
      | none => none
      | some s =>
        match floors[randInt f (k + 1) floors.length]? with
        | none => none
        | some g1 =>
          if s = g1 then
            match floors[randInt f (k + 2) floors.length]? with
            | none => none
            | some g2 => some ⟨grid2, s.1, s.2, g2.1, g2.2⟩
          else some ⟨grid2, s.1, s.2, g1.1, g1.2⟩

theorem wilsonFloors_passable (grid : Grid) (rows cols : Nat) (p : Pos)
    (hp : p ∈ wilsonFloors grid rows cols) : cellAt grid p.2 p.1 = 1 := by
  unfold wilsonFloors at hp
  obtain ⟨y, _, hp2⟩ := List.mem_flatMap.mp hp
  obtain ⟨x, _, hfx⟩ := List.mem_filterMap.mp hp2
  split at hfx
  · rename_i hc
    injection hfx with h1
    subst h1
    exact hc
  · exact absurd hfx (by simp)

theorem wilsonGenerateSync_passages (f : Nat → Nat) (rows cols fuel : Nat) (spec : MazeSpec)
    (h : wilsonGenerateSync f rows cols fuel = some spec) :
    cellAt spec.grid spec.startY spec.startX = 1 ∧ cellAt spec.grid spec.goalY spec.goalX = 1 := by
  simp only [wilsonGenerateSync] at h
  split at h
  · exact absurd h (by simp)
  · rename_i first hfirst
    split at h
    · exact absurd h (by simp)
    · rename_i grid2 k houter
      split at h
      · exact absurd h (by simp)
      · rename_i s hsmem
        have hs : cellAt grid2 s.2 s.1 = 1 := by
          apply wilsonFloors_passable
          obtain ⟨hlt, rfl⟩ := List.getElem?_eq_some_iff.mp hsmem
          exact List.getElem_mem hlt
        split at h
        · exact absurd h (by simp)
        · rename_i g1 hg1mem
          have hg1 : cellAt grid2 g1.2 g1.1 = 1 := by
            apply wilsonFloors_passable
            obtain ⟨hlt, rfl⟩ := List.getElem?_eq_some_iff.mp hg1mem
            exact List.getElem_mem hlt
          split at h
          · split at h
            · exact absurd h (by simp)
            · rename_i g2 hg2mem
              have hg2 : cellAt grid2 g2.2 g2.1 = 1 := by
                apply wilsonFloors_passable
                obtain ⟨hlt, rfl⟩ := List.getElem?_eq_some_iff.mp hg2mem
                exact List.getElem_mem hlt
              injection h with h1
              subst h1
              exact ⟨hs, hg2⟩
          · injection h with h1
            subst h1
            exact ⟨hs, hg1⟩

/-- C5 counterexample to the original claim: on a 1×1 grid kruskal's
generator emits an example whose goal equals its start (the single redraw
hits the only floor cell again), and the solver still succeeds on it, so
the example reaches the output. -/
theorem C5_counterexample :
    ∃ spec : MazeSpec, kruskalGenerateSync (fun _ => 0) 1 1 5 = some spec ∧
      spec.startX = spec.goalX ∧ spec.startY = spec.goalY ∧
      solveSync ⟨1, 1, spec.grid, spec.startX, spec.startY, spec.goalX, spec.goalY⟩
        heuristic 5 ≠ none :=
  ⟨⟨[[1]], 0, 0, 0, 0⟩, by rfl, rfl, rfl, by intro h; exact Option.noConfusion (by rw [← h]; rfl : (none : Option Solution) = some ⟨[⟨ETag.close, 0, 0, 0, 0⟩], [(0, 0)]⟩)⟩

/-! ## C9: the sequential `generateDataset` and the serializer signature -/

/-- The single argument object of a `serializeExample` call, as the
function's destructuring signature `\x7bspec, solution, generatorId,
solverId\x7d` reads it: each field is the property lookup, `none` for
`undefined`. -/
structure SerArg where
  spec? : Option MazeSpec
  solution? : Option Solution

/-- `serializeExample` with its real calling convention: it first runs
`const \x7bgrid, …\x7d = spec` and then `const \x7breasoning, plan\x7d =
solution`, and destructuring `undefined` throws a TypeError. -/
def serializeExampleChecked (arg : SerArg) : Except String String :=
  match arg.spec? with
  | none => Except.error "TypeError"
  | some spec =>
      match arg.solution? with
      | none => Except.error "TypeError"
      | some sol => Except.ok (serializeExample spec sol)

/-- What the positional call `serializeExample(spec, reasoning, plan)` of
`generateDataset` hands to that signature: the first argument is the
`MazeSpec` object itself, which has no `spec` or `solution` property, so
both lookups yield `undefined`. -/
def argOfPositional (_ : MazeSpec) : SerArg := ⟨none, none⟩

/-- The loop of `generateDataset` (index.js): per example generate a spec,
solve it, serialize through the positional call, and yield the line; a
thrown error aborts the whole run with no lines. The generator and the
PRNG threading are abstracted into `genStep` on a state `σ`. -/
def generateDatasetLines {σ : Type}
    (genStep : σ → Option (MazeSpec × σ))
    (solve : MazeSpec → Option Solution) :
    Nat → σ → Except String (List String)
  | 0, _ => Except.ok []
  | count + 1, st =>
      match genStep st with
      | none => Except.error "generateSync failed"
      | some (spec, st1) =>
          match solve spec with
          | none => Except.error "solveSync failed"
          | some _ =>
              match serializeExampleChecked (argOfPositional spec) with
              | Except.error e => Except.error e
              | Except.ok line =>
                  match generateDatasetLines genStep solve count st1 with
                  | Except.error e => Except.error e
                  | Except.ok rest => Except.ok (line :: rest)

/-- C9: for every configuration whose first example generates and solves
successfully and whose count is at least 1, the sequential public API
`generateDataset` yields no line: the positional
`serializeExample(spec, reasoning, plan)` call meets the object-destructuring
signature, `spec` and `solution` read as `undefined`, and the first
destructuring throws a TypeError that aborts the run. -/
theorem C9_positional_serialize {σ : Type}
    (genStep : σ → Option (MazeSpec × σ)) (solve : MazeSpec → Option Solution)
    (count : Nat) (st : σ) (hc : 0 < count)
    (spec : MazeSpec) (st1 : σ) (hg : genStep st = some (spec, st1))
    (sol : Solution) (hs : solve spec = some sol) :
    generateDatasetLines genStep solve count st = Except.error "TypeError" := by
  obtain ⟨c, rfl⟩ : ∃ c, count = c + 1 :=
    ⟨count - 1, (Nat.succ_pred_eq_of_pos hc).symm⟩
  unfold generateDatasetLines
  rw [hg]
  dsimp only
  rw [hs]
  rfl

/-- C9 witness: a constant generator emitting the 1×1 maze together with
the real embedded A* solver; the run aborts with the TypeError. -/
theorem C9_positional_serialize_witness :
    generateDatasetLines
      (fun st : Nat => some (⟨[[1]], 0, 0, 0, 0⟩, st))
      (fun m => solveSync ⟨1, 1, m.grid, m.startX, m.startY, m.goalX, m.goalY⟩ heuristic 5)
      1 0 = Except.error "TypeError" :=
  C9_positional_serialize _ _ 1 0 (by decide) ⟨[[1]], 0, 0, 0, 0⟩ 0 rfl
    ⟨[⟨ETag.close, 0, 0, 0, 0⟩], [(0, 0)]⟩ (by rfl)

/-! ## C10: `cellular_automata.generateSync` -/

/-- The random fill `grid[y][x] = prng() < fillProbability ? 0 : 1`
(row-major draw order; the probability is `pnum/pden`). -/
def caInitGrid (f : Nat → Nat) (rows cols pnum pden : Nat) : Grid :=
  (List.range rows).map (fun y =>
    (List.range cols).map (fun x =>
      if drawLt f (y * cols + x) pnum pden then 0 else 1))

/-- `countAlive(y, x)`: the eight neighbours, out-of-grid or wall counting
as alive. -/
def caCount (grid : Grid) (rows cols y x : Nat) : Nat :=
  (([-1, 0, 1] : List Int).flatMap (fun dy =>
    ([-1, 0, 1] : List Int).filterMap (fun dx =>
      if dx = 0 ∧ dy = 0 then none
      else
        let ny := (y : Int) + dy
        let nx := (x : Int) + dx
        if nx < 0 ∨ (cols : Int) ≤ nx ∨ ny < 0 ∨ (rows : Int) ≤ ny ∨
            cellAt grid ny.toNat nx.toNat = 0 then some 1 else none))).length

/-- One CA iteration into a fresh grid. -/
def caStep (grid : Grid) (rows cols survival birth : Nat) : Grid :=
  (List.range rows).map (fun y =>
    (List.range cols).map (fun x =>
      let alive := caCount grid rows cols y x
      if cellAt grid y x = 0 then (if alive < survival then 1 else 0)
      else (if birth < alive then 0 else 1)))

/-- `for (let it = 0; it < iterations; it++)`. -/
def caIter (rows cols survival birth : Nat) : Nat → Grid → Grid
  | 0, g => g
  | n + 1, g => caIter rows cols survival birth n (caStep g rows cols survival birth)

/-- The floor list of the CA generator (row-major `grid[y][x] === 1`). -/
def caFloors (grid : Grid) (rows cols : Nat) : List Pos :=
  (List.range rows).flatMap (fun y =>
    (List.range cols).filterMap (fun x =>
      if cellAt grid y x = 1 then some ((x, y) : Pos) else none))

/-- The post-iteration grid of `cellular_automata.generateSync`. -/
def caGrid (f : Nat → Nat) (rows cols pnum pden survival birth iters : Nat) : Grid :=
  caIter rows cols survival birth iters (caInitGrid f rows cols pnum pden)

/-- The loop `do \x7b b = pickIdx(); \x7d while (b === a)`. -/
def caPickB (f : Nat → Nat) (len a : Nat) : Nat → Nat → Option (Nat × Nat)
  | 0, _ => none
  | fuel + 1, k =>
      let b := randInt f k len
      if b = a then caPickB f len a fuel (k + 1) else some (b, k + 1)

/-- `cellular_automata.generateSync(\x7brows, cols, prng, …\x7d)`: the fill
consumes one draw per cell, `a` is the next draw, then the `b` loop. -/
def caGenerateSync (f : Nat → Nat)
    (rows cols pnum pden survival birth iters fuel : Nat) : Option MazeSpec :=
  let grid := caGrid f rows cols pnum pden survival birth iters
  let floors := caFloors grid rows cols
  let a := randInt f (rows * cols) floors.length
  match caPickB f floors.length a fuel (rows * cols + 1) with
  | none => none
  | some (b, _) =>
      match floors[a]?, floors[b]? with
      | some s, some g => some ⟨grid, s.1, s.2, g.1, g.2⟩
      | _, _ => none

theorem randInt_le_one (f : Nat → Nat) (k len : Nat) (hlen : len ≤ 1) :
    randInt f k len = 0 := by
  unfold randInt drawVal
  apply Nat.div_eq_of_lt
  calc f k % 4294967296 * len ≤ f k % 4294967296 * 1 :=
        Nat.mul_le_mul_left _ hlen
    _ < 4294967296 := by rw [Nat.mul_one]; exact Nat.mod_lt _ (by norm_num)

theorem caPickB_le_one (f : Nat → Nat) (len : Nat) (hlen : len ≤ 1) :
    ∀ fuel k, caPickB f len 0 fuel k = none := by
  intro fuel
  induction fuel with
  | zero => intro k; rfl
  | succ fuel ih =>
      intro k
      unfold caPickB
      dsimp only
      rw [randInt_le_one f k len hlen]
      simpa using ih (k + 1)

/-- C10: when the post-iteration grid keeps at most one passage cell, the
`do b = pickIdx() while (b === a)` loop of `cellular_automata.generateSync`
never terminates — no fuel makes the run return (reachable, e.g., with
`fillProbability = 1`, which gives an all-wall grid fixed by the CA rule;
see the witness). -/
theorem C10_ca_nontermination (f : Nat → Nat)
    (rows cols pnum pden survival birth iters : Nat)
    (hfloors : (caFloors (caGrid f rows cols pnum pden survival birth iters) rows cols).length ≤ 1) :
    ∀ fuel, caGenerateSync f rows cols pnum pden survival birth iters fuel = none := by
  intro fuel
  unfold caGenerateSync
  dsimp only
  rw [randInt_le_one _ _ _ hfloors, caPickB_le_one f _ hfloors fuel _]

/-- C10 witness: a 1×1 run with `fillProbability = 1` fills the single
cell as wall, the CA iterations keep it a wall, the floor list is empty,
and the run returns for no fuel. -/
theorem C10_ca_nontermination_witness :
    (caFloors (caGrid (fun _ => 0) 1 1 1 1 4 5 3) 1 1).length ≤ 1 ∧
    caGenerateSync (fun _ => 0) 1 1 1 1 4 5 3 7 = none :=
  ⟨by decide, C10_ca_nontermination (fun _ => 0) 1 1 1 1 4 5 3 (by decide) 7⟩

/-! ## C3: `searchformer.generateSync` -/

/-- State of the internal `runAstarSync` of the searchformer generator. -/
structure SfState where
  openSet : List Pos
  closed : Mat Bool
  gScore : Mat (Option Nat)
  fScore : Mat (Option Nat)
  cameFrom : Mat (Option Pos)

/-- One direction of `runAstarSync`'s neighbour loop: skip out-of-bounds,
walls and closed cells; on a strict `gScore` improvement update the
matrices and push onto `openSet` when absent. -/
def sfRelax (cols rows : Nat) (grid : Grid) (goal cur : Pos)
    (st : SfState) (d : Int × Int) : SfState :=
  match nbr cols rows cur d with
  | none => st
  | some v =>
      if cellAt grid v.2 v.1 = 0 ∨ st.closed v = true then st
      else
        match st.gScore cur with
        | none => st
        | some gc =>
            let tentative := gc + 1
            if oLT (some tentative) (st.gScore v) then
              { openSet := if v ∈ st.openSet then st.openSet else st.openSet ++ [v]
                closed := st.closed
                gScore := st.gScore.upd v (some tentative)
                fScore := st.fScore.upd v (some (tentative + manh v goal))
                cameFrom := st.cameFrom.upd v (some cur) }
            else st

/-- `runAstarSync`'s path reconstruction: `path = [[cx,cy]]`, follow
`cameFrom` pushing each hop, then reverse (the accumulator below already
builds the reversed list). -/
def sfRecon (came : Mat (Option Pos)) : Nat → Pos → List Pos → Option (List Pos)
  | 0, _, _ => none
  | fuel + 1, p, acc =>
      match came p with
      | none => some acc
      | some q => sfRecon came fuel q (q :: acc)

/-- The `while (openSet.length)` loop of `runAstarSync`: `some none`
models the JS `return null`, `some (some path)` a found path. -/
def sfLoop (cols rows : Nat) (grid : Grid) (goal : Pos) :
    Nat → SfState → Option (Option (List Pos))
  | 0, _ => none
  | fuel + 1, st =>
      match st.openSet with
      | [] => some none
      | _ :: _ =>
          let ex := extractLowestFScore st.fScore st.openSet
          let cur := ex.1
          if cur = goal then
            match sfRecon st.cameFrom (fuel + 1) cur [cur] with
            | none => none
            | some path => some (some path)
          else
            let st1 : SfState := { st with openSet := ex.2, closed := st.closed.upd cur true }
            sfLoop cols rows grid goal fuel (DIRS.foldl (sfRelax cols rows grid goal cur) st1)

/-- `runAstarSync(grid, startX, startY, goalX, goalY)`. -/
def sfRunAstar (rows cols : Nat) (grid : Grid) (s g : Pos) (fuel : Nat) :
    Option (Option (List Pos)) :=
  sfLoop cols rows grid g fuel
    { openSet := [s]
      closed := fun _ => false
      gScore := Mat.upd (fun _ => none) s (some 0)
      fScore := Mat.upd (fun _ => none) s (some (manh s g))
      cameFrom := fun _ => none }

/-- The 100-attempt placement loop: each attempt reads `free[0]`/`free[1]`,
runs the A*, breaks when the path is non-null with length ≥
`max(rows, cols)`, otherwise reshuffles `free`; the threaded `path`,
start and goal keep the LAST attempt's values when the count runs out. -/
def sfAttempts (f : Nat → Nat) (rows cols : Nat) (grid : Grid) (fuelA : Nat) :
    Nat → List Nat → Nat → Option (List Pos) → Pos → Pos →
    Option (Option (List Pos) × Pos × Pos × Nat)
  | 0, _, k, path, s, g => some (path, s, g, k)
  | att + 1, free, k, _, _, _ =>
      match free[0]?, free[1]? with
      | some sIdx, some gIdx =>
          let s : Pos := (sIdx % cols, sIdx / cols)
          let g : Pos := (gIdx % cols, gIdx / cols)
          match sfRunAstar rows cols grid s g fuelA with
          | none => none
          | some path =>
              if (match path with
                  | some p => decide (max rows cols ≤ p.length)
                  | none => false) then some (path, s, g, k)
              else
                let sh := shuffle f free k
                sfAttempts f rows cols grid fuelA att sh.1 sh.2 path s g
      | _, _ => none

/-- The outer `while (true)` sampling loop of `searchformer.generateSync`:
shuffle `indices` in place, choose the wall count, carve the passages,
run the placement attempts, and — as the code does — exit as soon as the
last attempt's `path` is non-null (`if (path) break`), committing that
attempt's start/goal whatever the path's length. -/
def sfOuter (f : Nat → Nat) (rows cols fuelA : Nat) :
    Nat → List Nat → Nat → Option MazeSpec
  | 0, _, _ => none
  | it + 1, indices, k =>
      let total := rows * cols
      let base := total / 10
      let minWalls := base * 3
      let maxWalls := base * 5
      let sh := shuffle f indices k
      let numWalls := minWalls + randInt f sh.2 (maxWalls - minWalls + 1)
      let passages := sh.1.drop numWalls
      let grid := passages.foldl
        (fun g idx => setCell g (idx / cols) (idx % cols) 1) (mkGrid rows cols)
      let shf := shuffle f passages (sh.2 + 1)
      match sfAttempts f rows cols grid fuelA 100 shf.1 shf.2 none (0, 0) (0, 0) with
      | none => none
      | some (path, s, g, k1) =>
          match path with
          | some _ => some ⟨grid, s.1, s.2, g.1, g.2⟩
          | none => sfOuter f rows cols fuelA it sh.1 k1

/-- `searchformer.generateSync({rows, cols, prng})`. -/
def sfGenerateSync (f : Nat → Nat) (rows cols fuelA fuelO : Nat) : Option MazeSpec :=
  sfOuter f rows cols fuelA fuelO (List.range (rows * cols)) 0

/-- C3: the claim is FALSE of the code. The spec says a start/goal pair is
committed only with an A* path of length ≥ max(rows, cols), and that 100
failed placement attempts restart the outer wall-sampling loop; but the
outer exit is `if (path) break`, which accepts any non-null `path` from
the last attempt. On a 1×3 grid with the constant PRNG stream 3000000000
every attempt finds the same length-2 path for start (0,0), goal (1,0);
after 100 attempts the generator commits that pair even though
2 < max(1,3) = 3. -/
theorem C3_searchformer_short_path :
    sfGenerateSync (fun _ => 3000000000) 1 3 10 2 = some ⟨[[1, 1, 1]], 0, 0, 1, 0⟩ ∧
    sfRunAstar 1 3 [[1, 1, 1]] (0, 0) (1, 0) 10 = some (some [(0, 0), (1, 0)]) ∧
    List.length [((0 : Nat), (0 : Nat)), (1, 0)] < max 1 3 := by
  refine ⟨by rfl, by rfl, by decide⟩

/-! ## C1: the parallel pipeline's batch keying -/

/-- The producer loop of producer-worker.js, abstracted over the batch-size
schedule: the `j`-th batch is generated with `config.batchSize = sizes j`
(the dispatcher may have updated it), starts at the running
`generatedCount` and is clipped to `count`. Each entry is
`(batchStart, length)`. -/
def mkBatches (sizes : Nat → Nat) (count : Nat) : Nat → Nat → Nat → List (Nat × Nat)
  | 0, _, _ => []
  | fuel + 1, j, s =>
      if count ≤ s then []
      else
        let size := min (sizes j) (count - s)
        (s, size) :: mkBatches sizes count fuel (j + 1) (s + size)

/-- The `batchPromises` lookup: the pre-created promise for `key` resolves
with a batch's lines exactly when some produced batch starts at `key`
(`batchPromise.resolve(msg.lines)` is skipped when `get` misses). -/
def batchLen (bs : List (Nat × Nat)) (key : Nat) : Option Nat :=
  (bs.find? (fun e => decide (e.1 = key))).map (fun e => e.2)

/-- Outcome of the consumer loop: the yielded example indices, a forever
blocked `await` on a promise nothing resolves, or exhausted fuel. -/
inductive CRes where
  | done : List Nat → CRes
  | stuck : CRes
  | outOfFuel : CRes
deriving DecidableEq

/-- The consumer loop of generateDatasetParallel: while
`nextYieldIdx < count`, await the promise at key
`⌊nextYieldIdx / batchSize⌋ * batchSize` (the INITIAL batch size `b`),
yield that batch's lines from its start up to
`min(batchStart + lines.length, count)`, and continue there. Lines are
identified with their example indices. -/
def consume (b count : Nat) (bs : List (Nat × Nat)) : Nat → Nat → CRes
  | 0, _ => CRes.outOfFuel
  | fuel + 1, nextIdx =>
      if count ≤ nextIdx then CRes.done []
      else
        let key := nextIdx / b * b
        match batchLen bs key with
        | none => CRes.stuck
        | some len =>
            let endIdx := min (key + len) count
            match consume b count bs fuel endIdx with
            | CRes.done rest => CRes.done (List.range' key (endIdx - key) ++ rest)
            | r => r

theorem range'_glue (s m n : Nat) :
    List.range' s (m + n) = List.range' s m ++ List.range' (s + m) n := by
  have h := (List.range'_append s m n 1).symm
  rw [one_mul] at h
  rw [Nat.add_comm m n]
  exact h

theorem consume_mkBatches (b count : Nat) (sizes : Nat → Nat) (hb : 0 < b)
    (hsz : ∀ j, 0 < sizes j ∧ b ∣ sizes j) :
    ∀ fuelP j s fuelC (pre : List (Nat × Nat)),
      b ∣ s → count - s ≤ fuelP → count - s < fuelC → (∀ e ∈ pre, e.1 < s) →
      consume b count (pre ++ mkBatches sizes count fuelP j s) fuelC s =
        CRes.done (List.range' s (count - s)) := by
  intro fuelP
  induction fuelP with
  | zero =>
      intro j s fuelC pre hdvd hfp hfc hpre
      have hcs : count - s = 0 := Nat.le_zero.mp hfp
      obtain ⟨fc, rfl⟩ : ∃ fc, fuelC = fc + 1 :=
        ⟨fuelC - 1, (Nat.succ_pred_eq_of_pos (hcs ▸ hfc)).symm⟩
      rw [hcs]
      unfold consume
      rw [if_pos (Nat.sub_eq_zero_iff_le.mp hcs)]
      rfl
  | succ fuelP ih =>
      intro j s fuelC pre hdvd hfp hfc hpre
      obtain ⟨fc, rfl⟩ : ∃ fc, fuelC = fc + 1 :=
        ⟨fuelC - 1, (Nat.succ_pred_eq_of_pos (Nat.pos_of_lt_add_right
          (Nat.lt_add_of_pos_left (Nat.lt_of_le_of_lt (Nat.zero_le _) hfc) )) ).symm⟩
      rcases le_or_lt count s with hle | hlt
      · have hcs : count - s = 0 := Nat.sub_eq_zero_of_le hle
        rw [hcs]
        unfold consume
        rw [if_pos hle]
        rfl
      · have hpos : 0 < count - s := Nat.sub_pos_of_lt hlt
        unfold consume mkBatches
        rw [if_neg (Nat.not_le.mpr hlt), if_neg (Nat.not_le.mpr hlt)]
        dsimp only
        have hkey : s / b * b = s := Nat.div_mul_cancel hdvd
        rw [hkey]
        have hlen : batchLen
            (pre ++ (s, min (sizes j) (count - s)) ::
              mkBatches sizes count fuelP (j + 1) (s + min (sizes j) (count - s))) s =
            some (min (sizes j) (count - s)) := by
          unfold batchLen
          rw [List.find?_append]
          rw [List.find?_eq_none.mpr (fun e he => by
            simp only [decide_eq_true_eq]
            exact Nat.ne_of_lt (hpre e he))]
          rw [Option.none_or, List.find?_cons_of_pos _ (by simp)]
          rfl
        rw [hlen]
        dsimp only
        set size := min (sizes j) (count - s) with hsize
        have hszpos : 0 < size := lt_min (hsz j).1 hpos
        have hszle : size ≤ count - s := min_le_right _ _
        have hend : min (s + size) count = s + size :=
          Nat.min_eq_left (by omega)
        rw [hend]
        have hrec : consume b count
            (pre ++ (s, size) :: mkBatches sizes count fuelP (j + 1) (s + size)) fc (s + size) =
            CRes.done (List.range' (s + size) (count - (s + size))) := by
          rcases Nat.lt_or_ge (s + size) count with hlt2 | hge2
          · -- another batch follows: the next start is still a multiple of b
            have hsz2 : size = sizes j := by
              by_cases hc : sizes j ≤ count - s
              · rw [hsize]; exact Nat.min_eq_left hc
              · exfalso
                have h1 : size = count - s := by
                  rw [hsize]; exact Nat.min_eq_right (Nat.le_of_not_le hc)
                omega
            have hdvd2 : b ∣ s + size := by
              rw [hsz2]; exact Nat.dvd_add hdvd (hsz j).2
            have := ih (j + 1) (s + size) fc (pre ++ [(s, size)]) hdvd2
              (by omega) (by omega)
              (fun e he => by
                rcases List.mem_append.mp he with he | he
                · exact Nat.lt_of_lt_of_le (hpre e he) (Nat.le_add_right _ _)
                · rcases List.mem_singleton.mp he with rfl
                  exact Nat.lt_add_of_pos_right hszpos)
            rw [List.append_assoc] at this
            simpa using this
          · -- the clipped final batch reaches count
            have hcs2 : count - (s + size) = 0 := Nat.sub_eq_zero_of_le hge2
            obtain ⟨fc2, rfl⟩ : ∃ fc2, fc = fc2 + 1 :=
              ⟨fc - 1, (Nat.succ_pred_eq_of_pos (by omega)).symm⟩
            rw [hcs2]
            unfold consume
            rw [if_pos hge2]
            rfl
        rw [hrec]
        have harith : count - s = size + (count - (s + size)) := by omega
        rw [harith, range'_glue s size (count - (s + size)), Nat.add_sub_cancel_left]

/-- C1: the claimed byte-equality of the parallel pipeline's output for
EVERY --batch-size / maxBatchSize / growth schedule is false in general;
what holds — proved here — is the amended statement: whenever every
dynamically chosen producer batch size is a (positive) multiple of the
initial batch size `b`, every producer batch start lands on a pre-created
`batchPromises` key and the consumer yields exactly the example indices
`0 .. count-1` in order. The unclamped doubling schedule `b·2^k` satisfies
the hypothesis; the clamp `min(currentBatchSize * 2, maxBatchSize)` can
violate it (see the counterexample, where the consumer blocks forever). -/
theorem C1_batch_alignment :
    ∀ (b count : Nat) (sizes : Nat → Nat) (fuelP fuelC : Nat),
      0 < b → (∀ j, 0 < sizes j ∧ b ∣ sizes j) →
      count ≤ fuelP → count < fuelC →
      consume b count (mkBatches sizes count fuelP 0 0) fuelC 0 =
        CRes.done (List.range count) := by
  intro b count sizes fuelP fuelC hb hsz hfp hfc
  have h := consume_mkBatches b count sizes hb hsz fuelP 0 0 fuelC []
    (Dvd.intro 0 rfl) (by omega) (by omega) (by simp)
  simpa [List.range_eq_range'] using h

/-- C1 counterexample: initial batch size 2, count 7, and the reachable
clamped schedule 2, 3, 3, … (doubling 2→4 clamped by maxBatchSize 3).
The producer's batches are (0,2), (2,3), (5,2); index 5's batch start 5
is no pre-created key, the consumer's key 4 resolves never, and the run
sticks after yielding 0..4 — while the same count with the uniform
schedule yields everything, so the output is NOT independent of the
batch-size settings. -/
theorem C1_counterexample :
    consume 2 7 (mkBatches (fun j => if j = 0 then 2 else 3) 7 10 0 0) 10 0 =
      CRes.stuck ∧
    batchLen (mkBatches (fun j => if j = 0 then 2 else 3) 7 10 0 0) 4 = none ∧
    consume 2 7 (mkBatches (fun _ => 2) 7 10 0 0) 10 0 =
      CRes.done (List.range 7) := by
  refine ⟨by decide, by decide, by decide⟩

/-- C1 witness: a growing schedule of multiples of the initial batch
size 3 yields exactly the indices 0..9 in order. -/
theorem C1_batch_alignment_witness :
    consume 3 10 (mkBatches (fun j => 3 * (j + 1)) 10 12 0 0) 12 0 =
      CRes.done (List.range 10) :=
  C1_batch_alignment 3 10 (fun j => 3 * (j + 1)) 12 12 (by decide)
    (fun j => ⟨by show 0 < 3 * (j + 1); omega, ⟨j + 1, rfl⟩⟩) (by decide) (by decide)

/-! ## Passage-endpoint invariant for the remaining generators -/

theorem mem_swapIdx {α : Type} (l : List α) (i j : Nat) (a : α)
    (h : a ∈ swapIdx l i j) : a ∈ l := by
  unfold swapIdx at h
  split at h
  · rename_i b c hb hc
    rw [List.get?_eq_getElem?] at hb hc
    have hbmem : b ∈ l := by
      obtain ⟨hlt, rfl⟩ := List.getElem?_eq_some_iff.mp hb
      exact List.getElem_mem hlt
    have hcmem : c ∈ l := by
      obtain ⟨hlt, rfl⟩ := List.getElem?_eq_some_iff.mp hc
      exact List.getElem_mem hlt
    rcases List.mem_or_eq_of_mem_set h with h1 | h1
    · rcases List.mem_or_eq_of_mem_set h1 with h2 | h2
      · exact h2
      · exact h2 ▸ hcmem
    · exact h1 ▸ hbmem
  · exact h

theorem mem_shuffleFrom {α : Type} (f : Nat → Nat) :
    ∀ (n : Nat) (l : List α) (k : Nat) (a : α),
      a ∈ (shuffleFrom f l k n).1 → a ∈ l := by
  intro n
  induction n with
  | zero => intro l k a h; exact h
  | succ n ih =>
      intro l k a h
      exact mem_swapIdx _ _ _ _ (ih _ _ _ h)

theorem mem_shuffle {α : Type} (f : Nat → Nat) (l : List α) (k : Nat) (a : α)
    (h : a ∈ (shuffle f l k).1) : a ∈ l := by
  unfold shuffle at h
  split at h
  · exact h
  · exact mem_shuffleFrom f _ _ _ _ h

/-- The grid built by the generators keeps its rectangular shape. -/
def GridDims (g : Grid) (rows cols : Nat) : Prop :=
  g.length = rows ∧ ∀ row ∈ g, row.length = cols

theorem gridDims_mkGrid (rows cols : Nat) : GridDims (mkGrid rows cols) rows cols := by
  constructor
  · exact List.length_replicate rows _
  · intro row hrow
    exact (List.eq_of_mem_replicate hrow) ▸ List.length_replicate cols 0

theorem setCell_of_length_le (g : Grid) (y x v : Nat) (hy : g.length ≤ y) :
    setCell g y x v = g := by
  unfold setCell
  exact List.set_eq_of_length_le hy

theorem gridDims_setCell (g : Grid) (rows cols y x v : Nat)
    (hd : GridDims g rows cols) : GridDims (setCell g y x v) rows cols := by
  obtain ⟨hlen, hrows⟩ := hd
  rcases Nat.lt_or_ge y g.length with hy | hy
  · constructor
    · unfold setCell
      rw [List.length_set]
      exact hlen
    · intro row hrow
      unfold setCell at hrow
      rcases List.mem_or_eq_of_mem_set hrow with h1 | h1
      · exact hrows row h1
      · subst h1
        rw [List.length_set]
        apply hrows
        rw [List.getD_eq_getElem?_getD, List.getElem?_eq_getElem hy, Option.getD_some]
        exact List.getElem_mem hy
  · rw [setCell_of_length_le g y x v hy]
    exact ⟨hlen, hrows⟩

theorem cellAt_setCell_self (g : Grid) (rows cols y x v : Nat)
    (hd : GridDims g rows cols) (hy : y < rows) (hx : x < cols) :
    cellAt (setCell g y x v) y x = v := by
  obtain ⟨hlen, hrows⟩ := hd
  have hyl : y < g.length := hlen ▸ hy
  have hrow : (g.getD y []).length = cols := by
    rw [List.getD_eq_getElem?_getD, List.getElem?_eq_getElem hyl, Option.getD_some]
    exact hrows _ (List.getElem_mem hyl)
  unfold cellAt setCell
  simp only [List.getD_eq_getElem?_getD]
  rw [List.getElem?_set_self hyl, Option.getD_some,
    List.getElem?_set_self (by
      rw [← List.getD_eq_getElem?_getD]
      rw [hrow]
      exact hx), Option.getD_some]

theorem cellAt_setCell_keep_one (g : Grid) (y x y' x' : Nat)
    (h : cellAt g y x = 1) : cellAt (setCell g y' x' 1) y x = 1 := by
  rcases cellAt_setCell_cases g y' x' 1 y x with h1 | h1
  · exact h1
  · rw [h1]; exact h

theorem foldl_setCell_keep_one (cols : Nat) (l : List Nat) :
    ∀ (g : Grid) (y x : Nat), cellAt g y x = 1 →
      cellAt (l.foldl (fun g idx => setCell g (idx / cols) (idx % cols) 1) g) y x = 1 := by
  induction l with
  | nil => intro g y x h; exact h
  | cons i t ih =>
      intro g y x h
      exact ih _ _ _ (cellAt_setCell_keep_one g y x _ _ h)

theorem foldl_setCell_dims (rows cols : Nat) (l : List Nat) :
    ∀ g : Grid, GridDims g rows cols →
      GridDims (l.foldl (fun g idx => setCell g (idx / cols) (idx % cols) 1) g) rows cols := by
  induction l with
  | nil => intro g h; exact h
  | cons i t ih =>
      intro g h
      exact ih _ (gridDims_setCell _ rows cols _ _ _ h)

/-- Carving the passage list opens every listed in-range cell. -/
theorem foldl_setCell_passage (rows cols : Nat) (l : List Nat) :
    ∀ (g : Grid) (idx : Nat), GridDims g rows cols → idx ∈ l → idx < rows * cols →
      0 < cols →
      cellAt (l.foldl (fun g idx => setCell g (idx / cols) (idx % cols) 1) g)
        (idx / cols) (idx % cols) = 1 := by
  induction l with
  | nil => intro g idx _ hmem; exact absurd hmem (List.not_mem_nil idx)
  | cons i t ih =>
      intro g idx hd hmem hlt hcols
      rcases List.mem_cons.mp hmem with rfl | hmem
      · rw [List.foldl_cons]
        apply foldl_setCell_keep_one
        exact cellAt_setCell_self g rows cols _ _ 1 hd
          (Nat.div_lt_of_lt_mul (by rw [Nat.mul_comm] at hlt; exact hlt))
          (Nat.mod_lt idx hcols)
      · exact ih _ idx (gridDims_setCell _ rows cols _ _ _ hd) hmem hlt hcols

theorem sfAttempts_passages (f : Nat → Nat) (rows cols : Nat) (grid : Grid) (fuelA : Nat) :
    ∀ (att : Nat) (free : List Nat) (k : Nat) (path0 : Option (List Pos)) (s0 g0 : Pos)
      (res : Option (List Pos) × Pos × Pos × Nat),
      (∀ i ∈ free, cellAt grid (i / cols) (i % cols) = 1) →
      (path0 = none ∨ (cellAt grid s0.2 s0.1 = 1 ∧ cellAt grid g0.2 g0.1 = 1)) →
      sfAttempts f rows cols grid fuelA att free k path0 s0 g0 = some res →
      (res.1 = none ∨
        (cellAt grid res.2.1.2 res.2.1.1 = 1 ∧ cellAt grid res.2.2.1.2 res.2.2.1.1 = 1)) := by
  intro att
  induction att with
  | zero =>
      intro free k path0 s0 g0 res hfree hinv h
      unfold sfAttempts at h
      injection h with h1
      subst h1
      exact hinv
  | succ att ih =>
      intro free k path0 s0 g0 res hfree hinv h
      simp only [sfAttempts] at h
      split at h
      · rename_i sIdx gIdx hs hg
        have hsmem : cellAt grid (sIdx / cols) (sIdx % cols) = 1 := by
          apply hfree
          obtain ⟨hlt, rfl⟩ := List.getElem?_eq_some_iff.mp hs
          exact List.getElem_mem hlt
        have hgmem : cellAt grid (gIdx / cols) (gIdx % cols) = 1 := by
          apply hfree
          obtain ⟨hlt, rfl⟩ := List.getElem?_eq_some_iff.mp hg
          exact List.getElem_mem hlt
        split at h
        · exact absurd h (by simp)
        · rename_i path hrun
          split at h
          · injection h with h1
            subst h1
            right
            exact ⟨hsmem, hgmem⟩
          · exact ih _ _ _ _ _ _
              (fun i hi => hfree i (mem_shuffle f free k i hi))
              (Or.inr ⟨hsmem, hgmem⟩) h
      · exact absurd h (by simp)

theorem sfOuter_passages (f : Nat → Nat) (rows cols fuelA : Nat) :
    ∀ (fuelO : Nat) (indices : List Nat) (k : Nat) (spec : MazeSpec),
      (∀ i ∈ indices, i < rows * cols) →
      sfOuter f rows cols fuelA fuelO indices k = some spec →
      cellAt spec.grid spec.startY spec.startX = 1 ∧
        cellAt spec.grid spec.goalY spec.goalX = 1 := by
  intro fuelO
  induction fuelO with
  | zero =>
      intro indices k spec _ h
      exact absurd h (by simp [sfOuter])
  | succ fuelO ih =>
      intro indices k spec hind h
      simp only [sfOuter] at h
      split at h
      · exact absurd h (by simp)
      · rename_i res path s g k1 hatt
        have hpass : ∀ i ∈ (shuffle f ((shuffle f indices k).1.drop
            (rows * cols / 10 * 3 +
              randInt f (shuffle f indices k).2
                (rows * cols / 10 * 5 - rows * cols / 10 * 3 + 1)))
            ((shuffle f indices k).2 + 1)).1,
            cellAt (((shuffle f indices k).1.drop
              (rows * cols / 10 * 3 +
                randInt f (shuffle f indices k).2
                  (rows * cols / 10 * 5 - rows * cols / 10 * 3 + 1))).foldl
              (fun g idx => setCell g (idx / cols) (idx % cols) 1)
              (mkGrid rows cols)) (i / cols) (i % cols) = 1 := by
          intro i hi
          have hip : i ∈ (shuffle f indices k).1.drop
              (rows * cols / 10 * 3 +
                randInt f (shuffle f indices k).2
                  (rows * cols / 10 * 5 - rows * cols / 10 * 3 + 1)) :=
            mem_shuffle f _ _ i hi
          have hilt : i < rows * cols :=
            hind i (mem_shuffle f indices k i (List.mem_of_mem_drop hip))
          have hcols : 0 < cols := by
            rcases Nat.eq_zero_or_pos cols with hc | hc
            · subst hc
              rw [Nat.mul_zero] at hilt
              omega
            · exact hc
          exact foldl_setCell_passage rows cols _ _ i
            (gridDims_mkGrid rows cols) hip hilt hcols
        have hres := sfAttempts_passages f rows cols _ fuelA 100 _ _ none (0, 0) (0, 0)
          (path, s, g, k1) hpass (Or.inl rfl) hatt
        split at h
        · rename_i p
          injection h with h1
          subst h1
          dsimp only
          rcases hres with h0 | h1
          · exact absurd h0 (by simp)
          · exact h1
        · exact ih _ k1 spec (fun i hi => hind i (mem_shuffle f indices k i hi)) h

theorem sfGenerateSync_passages (f : Nat → Nat) (rows cols fuelA fuelO : Nat) (spec : MazeSpec)
    (h : sfGenerateSync f rows cols fuelA fuelO = some spec) :
    cellAt spec.grid spec.startY spec.startX = 1 ∧
      cellAt spec.grid spec.goalY spec.goalX = 1 := by
  unfold sfGenerateSync at h
  exact sfOuter_passages f rows cols fuelA fuelO _ 0 spec
    (fun i hi => List.mem_range.mp hi) h

theorem caFloors_passable (grid : Grid) (rows cols : Nat) (p : Pos)
    (hp : p ∈ caFloors grid rows cols) : cellAt grid p.2 p.1 = 1 := by
  unfold caFloors at hp
  obtain ⟨y, _, hp2⟩ := List.mem_flatMap.mp hp
  obtain ⟨x, _, hfx⟩ := List.mem_filterMap.mp hp2
  split at hfx
  · rename_i hc
    injection hfx with h1
    subst h1
    exact hc
  · exact absurd hfx (by simp)

theorem caGenerateSync_passages (f : Nat → Nat)
    (rows cols pnum pden survival birth iters fuel : Nat) (spec : MazeSpec)
    (h : caGenerateSync f rows cols pnum pden survival birth iters fuel = some spec) :
    cellAt spec.grid spec.startY spec.startX = 1 ∧
      cellAt spec.grid spec.goalY spec.goalX = 1 := by
  simp only [caGenerateSync] at h
  split at h
  · exact absurd h (by simp)
  · rename_i b k1 hpick
    split at h
    · rename_i s g hsmem hgmem
      injection h with h1
      subst h1
      dsimp only
      constructor
      · apply caFloors_passable
        obtain ⟨hlt, rfl⟩ := List.getElem?_eq_some_iff.mp hsmem
        exact List.getElem_mem hlt
      · apply caFloors_passable
        obtain ⟨hlt, rfl⟩ := List.getElem?_eq_some_iff.mp hgmem
        exact List.getElem_mem hlt
    · exact absurd h (by simp)

/-! ## DFS backtracker: `generateSync` of the stack-based generator -/

/-- The candidate list of the carve loop, in source order (up, right,
down, left over two-step jumps into still-walled rooms; the `y > 1` /
`x < cols - 2` bounds are the source's). -/
def dfsNeighbors (grid : Grid) (rows cols x y : Nat) : List Pos :=
  (if 1 < y ∧ cellAt grid (y - 2) x = 0 then [((x, y - 2) : Pos)] else []) ++
  (if x < cols - 2 ∧ cellAt grid y (x + 2) = 0 then [((x + 2, y) : Pos)] else []) ++
  (if y < rows - 2 ∧ cellAt grid (y + 2) x = 0 then [((x, y + 2) : Pos)] else []) ++
  (if 1 < x ∧ cellAt grid y (x - 2) = 0 then [((x - 2, y) : Pos)] else [])

/-- The `while (stack.length > 0)` carve loop (list head = stack top):
with candidates, draw one, open the wall between and the room, push;
without, pop. -/
def dfsCarve (f : Nat → Nat) (rows cols : Nat) :
    Nat → List Pos → Grid → Nat → Option (Grid × Nat)
  | 0, _, _, _ => none
  | fuel + 1, stack, grid, k =>
      match stack with
      | [] => some (grid, k)
      | (x, y) :: rest =>
          match dfsNeighbors grid rows cols x y with
          | [] => dfsCarve f rows cols fuel rest grid k
          | nb :: nbs =>
              match (nb :: nbs)[randInt f k (nb :: nbs).length]? with
              | none => none
              | some n =>
                  dfsCarve f rows cols fuel (n :: (x, y) :: rest)
                    (setCell (setCell grid ((y + n.2) / 2) ((x + n.1) / 2) 1) n.2 n.1 1)
                    (k + 1)

/-- The goal loop `do \x7b [goalX,goalY] = pickRandom() \x7d while (goal
=== start)`: each round is the same rejection sampler as the start pick. -/
def dfsGoal (f : Nat → Nat) (grid : Grid) (rows cols fuelP : Nat) (s : Pos) :
    Nat → Nat → Option (Pos × Nat)
  | 0, _ => none
  | fuel + 1, k =>
      match kruskalPick f grid rows cols fuelP k with
      | none => none
      | some (g, k1) => if g = s then dfsGoal f grid rows cols fuelP s fuel k1
                        else some (g, k1)

/-- `dfs.generateSync({rows, cols, prng})`: seed `(0,0)`, carve, then the
rejection-sampled start and the distinct goal. -/
def dfsGenerateSync (f : Nat → Nat) (rows cols fuelC fuelP : Nat) : Option MazeSpec :=
  let grid0 := setCell (mkGrid rows cols) 0 0 1
  match dfsCarve f rows cols fuelC [(0, 0)] grid0 0 with
  | none => none
  | some (grid, k) =>
      match kruskalPick f grid rows cols fuelP k with
      | none => none
      | some (s, k1) =>
          match dfsGoal f grid rows cols fuelP s fuelP k1 with
          | none => none
          | some (g, _) => some ⟨grid, s.1, s.2, g.1, g.2⟩

theorem gridBinary_dfsCarve (f : Nat → Nat) (rows cols : Nat) :
    ∀ (fuel : Nat) (stack : List Pos) (grid : Grid) (k : Nat) (grid1 : Grid) (k1 : Nat),
      GridBinary grid → dfsCarve f rows cols fuel stack grid k = some (grid1, k1) →
      GridBinary grid1 := by
  intro fuel
  induction fuel with
  | zero =>
      intro stack grid k grid1 k1 _ h
      exact absurd h (by simp [dfsCarve])
  | succ fuel ih =>
      intro stack grid k grid1 k1 hbin h
      unfold dfsCarve at h
      split at h
      · injection h with h1
        injection h1 with h2 h3
        subst h2
        exact hbin
      · split at h
        · exact ih _ _ _ _ _ hbin h
        · split at h
          · exact absurd h (by simp)
          · exact ih _ _ _ _ _
              (gridBinary_setCell _ _ _ (gridBinary_setCell _ _ _ hbin)) h

theorem dfsGoal_passable (f : Nat → Nat) (grid : Grid) (rows cols fuelP : Nat) (s : Pos) :
    ∀ (fuel k : Nat) (g : Pos) (k1 : Nat),
      dfsGoal f grid rows cols fuelP s fuel k = some (g, k1) →
      cellAt grid g.2 g.1 ≠ 0 := by
  intro fuel
  induction fuel with
  | zero =>
      intro k g k1 h
      exact absurd h (by simp [dfsGoal])
  | succ fuel ih =>
      intro k g k1 h
      unfold dfsGoal at h
      split at h
      · exact absurd h (by simp)
      · rename_i g0 k0 hpick
        split at h
        · exact ih _ _ _ h
        · injection h with h1
          injection h1 with h2 h3
          subst h2
          exact kruskalPick_passable f grid rows cols fuelP k g0 k0 hpick

theorem dfsGenerateSync_passages (f : Nat → Nat) (rows cols fuelC fuelP : Nat) (spec : MazeSpec)
    (h : dfsGenerateSync f rows cols fuelC fuelP = some spec) :
    cellAt spec.grid spec.startY spec.startX = 1 ∧
      cellAt spec.grid spec.goalY spec.goalX = 1 := by
  simp only [dfsGenerateSync] at h
  split at h
  · exact absurd h (by simp)
  · rename_i grid k hcarve
    have hbin : GridBinary grid :=
      gridBinary_dfsCarve f rows cols fuelC _ _ 0 grid k
        (gridBinary_setCell _ _ _ (gridBinary_mkGrid rows cols)) hcarve
    split at h
    · exact absurd h (by simp)
    · rename_i s k1 hs
      have hsp := kruskalPick_passable f grid rows cols fuelP k s k1 hs
      split at h
      · exact absurd h (by simp)
      · rename_i g k2 hg
        have hgp := dfsGoal_passable f grid rows cols fuelP s fuelP k1 g k2 hg
        injection h with h1
        subst h1
        dsimp only
        constructor
        · rcases hbin s.2 s.1 with h0 | h1
          · exact absurd h0 hsp
          · exact h1
        · rcases hbin g.2 g.1 with h0 | h1
          · exact absurd h0 hgp
          · exact h1

/-! ## Drunkard's walk: `generateSync` of drunkards_walk.js -/

/-- The random-walk carve loop: build the valid-direction list in source
order, draw one, step, and carve if the cell is still a wall. -/
def dwWalk (f : Nat → Nat) (rows cols target : Nat) :
    Nat → Grid → Nat → Nat → Nat → Nat → Option (Grid × Nat)
  | 0, _, _, _, _, _ => none
  | fuel + 1, grid, carved, x, y, k =>
      if target ≤ carved then some (grid, k)
      else
        let dirs : List (Int × Int) :=
          (if 0 < x then [((-1 : Int), (0 : Int))] else []) ++
          (if x < cols - 1 then [((1 : Int), (0 : Int))] else []) ++
          (if 0 < y then [((0 : Int), (-1 : Int))] else []) ++
          (if y < rows - 1 then [((0 : Int), (1 : Int))] else [])
        match dirs[randInt f k dirs.length]? with
        | none => none
        | some d =>
            let x1 := ((x : Int) + d.1).toNat
            let y1 := ((y : Int) + d.2).toNat
            if cellAt grid y1 x1 = 0 then
              dwWalk f rows cols target fuel (setCell grid y1 x1 1) (carved + 1) x1 y1 (k + 1)
            else dwWalk f rows cols target fuel grid carved x1 y1 (k + 1)

/-- The floor list of the drunkard's walk (row-major `grid[yy][xx] === 1`). -/
def dwFloors (grid : Grid) (rows cols : Nat) : List Pos :=
  (List.range rows).flatMap (fun y =>
    (List.range cols).filterMap (fun x =>
      if cellAt grid y x = 1 then some ((x, y) : Pos) else none))

/-- `drunkards_walk.generateSync({rows, cols, prng, coverage})` with the
coverage ratio `cnum/cden` (`target = max(2, min(total, ⌊total·coverage⌋))`);
the `floors.length < 2` guard models the thrown Error, and the distinct
goal loop is the same `do…while (idxB === idxA)` as the CA generator's. -/
def dwGenerateSync (f : Nat → Nat) (rows cols cnum cden fuelW fuelP : Nat) : Option MazeSpec :=
  let total := rows * cols
  let target := max 2 (min total (total * cnum / cden))
  let x0 := randInt f 0 cols
  let y0 := randInt f 1 rows
  match dwWalk f rows cols target fuelW (setCell (mkGrid rows cols) y0 x0 1) 1 x0 y0 2 with
  | none => none
  | some (grid, k) =>
      let floors := dwFloors grid rows cols
      let idxA := randInt f k floors.length
      if floors.length < 2 then none
      else
        match caPickB f floors.length idxA fuelP (k + 1) with
        | none => none
        | some (idxB, _) =>
            match floors[idxA]?, floors[idxB]? with
            | some s, some g => some ⟨grid, s.1, s.2, g.1, g.2⟩
            | _, _ => none

theorem dwFloors_passable (grid : Grid) (rows cols : Nat) (p : Pos)
    (hp : p ∈ dwFloors grid rows cols) : cellAt grid p.2 p.1 = 1 := by
  unfold dwFloors at hp
  obtain ⟨y, _, hp2⟩ := List.mem_flatMap.mp hp
  obtain ⟨x, _, hfx⟩ := List.mem_filterMap.mp hp2
  split at hfx
  · rename_i hc
    injection hfx with h1
    subst h1
    exact hc
  · exact absurd hfx (by simp)

theorem dwGenerateSync_passages (f : Nat → Nat)
    (rows cols cnum cden fuelW fuelP : Nat) (spec : MazeSpec)
    (h : dwGenerateSync f rows cols cnum cden fuelW fuelP = some spec) :
    cellAt spec.grid spec.startY spec.startX = 1 ∧
      cellAt spec.grid spec.goalY spec.goalX = 1 := by
  simp only [dwGenerateSync] at h
  split at h
  · exact absurd h (by simp)
  · rename_i grid k hwalk
    split at h
    · exact absurd h (by simp)
    · split at h
      · exact absurd h (by simp)
      · rename_i idxB k2 hpick
        split at h
        · rename_i s g hsmem hgmem
          injection h with h1
          subst h1
          dsimp only
          constructor
          · apply dwFloors_passable
            obtain ⟨hlt, rfl⟩ := List.getElem?_eq_some_iff.mp hsmem
            exact List.getElem_mem hlt
          · apply dwFloors_passable
            obtain ⟨hlt, rfl⟩ := List.getElem?_eq_some_iff.mp hgmem
            exact List.getElem_mem hlt
        · exact absurd h (by simp)

/-- C5: for every successfully emitted example, from every generator
(kruskal, wilson, searchformer, cellular automata, dfs, drunkard's walk),
the start and goal cells are passages:
`grid[startY][startX] = grid[goalY][goalX] = 1`, whatever the PRNG stream,
parameters and fuel — but the claimed distinctness
`(startX,startY) ≠ (goalX,goalY)` is FALSE: kruskal's and wilson's goal
picker redraws only once when the drawn goal equals the start, and the
redraw can hit the start again (see the counterexample), so only the
passage-cell invariant survives. -/
theorem C5_passage_endpoints :
    (∀ f rows cols fuel spec, kruskalGenerateSync f rows cols fuel = some spec →
      cellAt spec.grid spec.startY spec.startX = 1 ∧
      cellAt spec.grid spec.goalY spec.goalX = 1) ∧
    (∀ f rows cols fuel spec, wilsonGenerateSync f rows cols fuel = some spec →
      cellAt spec.grid spec.startY spec.startX = 1 ∧
      cellAt spec.grid spec.goalY spec.goalX = 1) ∧
    (∀ f rows cols fuelA fuelO spec, sfGenerateSync f rows cols fuelA fuelO = some spec →
      cellAt spec.grid spec.startY spec.startX = 1 ∧
      cellAt spec.grid spec.goalY spec.goalX = 1) ∧
    (∀ f rows cols pnum pden survival birth iters fuel spec,
      caGenerateSync f rows cols pnum pden survival birth iters fuel = some spec →
      cellAt spec.grid spec.startY spec.startX = 1 ∧
      cellAt spec.grid spec.goalY spec.goalX = 1) ∧
    (∀ f rows cols fuelC fuelP spec, dfsGenerateSync f rows cols fuelC fuelP = some spec →
      cellAt spec.grid spec.startY spec.startX = 1 ∧
      cellAt spec.grid spec.goalY spec.goalX = 1) ∧
    (∀ f rows cols cnum cden fuelW fuelP spec,
      dwGenerateSync f rows cols cnum cden fuelW fuelP = some spec →
      cellAt spec.grid spec.startY spec.startX = 1 ∧
      cellAt spec.grid spec.goalY spec.goalX = 1) :=
  ⟨fun f rows cols fuel spec h => kruskalGenerateSync_passages f rows cols fuel spec h,
   fun f rows cols fuel spec h => wilsonGenerateSync_passages f rows cols fuel spec h,
   fun f rows cols fuelA fuelO spec h => sfGenerateSync_passages f rows cols fuelA fuelO spec h,
   fun f rows cols pnum pden survival birth iters fuel spec h =>
     caGenerateSync_passages f rows cols pnum pden survival birth iters fuel spec h,
   fun f rows cols fuelC fuelP spec h => dfsGenerateSync_passages f rows cols fuelC fuelP spec h,
   fun f rows cols cnum cden fuelW fuelP spec h =>
     dwGenerateSync_passages f rows cols cnum cden fuelW fuelP spec h⟩

/-- C5 witness: all six generators run to completion on small grids with
concrete streams, and the theorem applies to each returned spec. -/
theorem C5_passage_endpoints_witness :
    kruskalGenerateSync (fun _ => 0) 1 1 5 = some ⟨[[1]], 0, 0, 0, 0⟩ ∧
    wilsonGenerateSync (fun _ => 0) 1 1 5 = some ⟨[[1]], 0, 0, 0, 0⟩ ∧
    sfGenerateSync (fun _ => 3000000000) 1 3 10 2 = some ⟨[[1, 1, 1]], 0, 0, 1, 0⟩ ∧
    caGenerateSync (fun k => if k ≤ 2 then 0 else 2147483648) 1 2 0 1 4 5 0 5 =
      some ⟨[[1, 1]], 0, 0, 1, 0⟩ ∧
    dfsGenerateSync (fun k => if k ≤ 2 then 0 else 1431655766) 1 3 5 5 =
      some ⟨[[1, 1, 1]], 0, 0, 1, 0⟩ ∧
    dwGenerateSync (fun k => if k ≤ 3 then 0 else 2147483648) 1 2 1 1 5 5 =
      some ⟨[[1, 1]], 0, 0, 1, 0⟩ ∧
    cellAt [[1]] 0 0 = 1 ∧ cellAt [[1, 1, 1]] 0 1 = 1 ∧ cellAt [[1, 1]] 0 1 = 1 := by
  have h1 : kruskalGenerateSync (fun _ => 0) 1 1 5 = some ⟨[[1]], 0, 0, 0, 0⟩ := by rfl
  have h2 : wilsonGenerateSync (fun _ => 0) 1 1 5 = some ⟨[[1]], 0, 0, 0, 0⟩ := by rfl
  have h3 : sfGenerateSync (fun _ => 3000000000) 1 3 10 2 =
      some ⟨[[1, 1, 1]], 0, 0, 1, 0⟩ := by rfl
  have h4 : caGenerateSync (fun k => if k ≤ 2 then 0 else 2147483648) 1 2 0 1 4 5 0 5 =
      some ⟨[[1, 1]], 0, 0, 1, 0⟩ := by rfl
  have h5 : dfsGenerateSync (fun k => if k ≤ 2 then 0 else 1431655766) 1 3 5 5 =
      some ⟨[[1, 1, 1]], 0, 0, 1, 0⟩ := by rfl
  have h6 : dwGenerateSync (fun k => if k ≤ 3 then 0 else 2147483648) 1 2 1 1 5 5 =
      some ⟨[[1, 1]], 0, 0, 1, 0⟩ := by rfl
  refine ⟨h1, h2, h3, h4, h5, h6,
    (C5_passage_endpoints.1 (fun _ => 0) 1 1 5 _ h1).1,
    (C5_passage_endpoints.2.2.1 (fun _ => 3000000000) 1 3 10 2 _ h3).2,
    (C5_passage_endpoints.2.2.2.2.2 (fun k => if k ≤ 3 then 0 else 2147483648)
      1 2 1 1 5 5 _ h6).2⟩
